import Mathlib

/-!
Shallow embedding of `hashset.h` (San7o/hashset.h), a header-only C99
open-addressing hash set with tombstone deletion, declared through the
macro `HASHSET_DECLARE(prefix, type, hash_fn, eq_fn)`.

Modelling conventions:
* The generated struct `prefix##_set` becomes the structure `HSet K`;
  the entry array `data` (of `(val, size)` pairs) and the `uint8_t *state`
  array become Lean lists of length `capacity`
  (state codes as in the C comment: 0 = empty, 1 = used, 2 = deleted).
* `size_t` and `unsigned int` values are modelled as `Nat`; `size_t` is
  unsigned, so every C comparison `x < 0` on it is false (the C source
  contains several such dead checks, kept here literally as `if x < 0`).
* Array reads with a possibly out-of-range index are modelled through
  `List.get?`; the `none` outcome marks an out-of-bounds access, which in
  C is undefined behavior.  Each fallible operation therefore returns an
  `Option`.  In-bounds accesses inside the probe loop (indices are always
  masked) use `List.getD`.
* The load-factor test `(double)set->size / set->capacity > 0.7` is
  modelled as `10 * size > 7 * capacity`.  This is exact here: `capacity`
  is a power of two, so `size / capacity` is a dyadic rational computed
  exactly by IEEE double division for the magnitudes involved, the double
  literal `0.7` is strictly below the rational `7/10` by less than
  `2 ^ (-53)`, and no dyadic rational with the denominators occurring here
  lies between them.
* `HASHSET_CALLOC` zero-fills; allocation is assumed to succeed inside
  `resize`/`insert` (the C code never checks those results either).  For
  `init`/`destroy`, where pointer nullness is observable, a separate
  pointer-level model `RawSet` is used, with `none` playing NULL, and
  `init` is parametrised by the success of its two `calloc` calls.
-/

namespace Hashset

/-- The struct generated by `HASHSET_DECLARE`: entry array `data` of
`(val, size)` pairs, parallel `state` array (0 = empty, 1 = used,
2 = deleted), and the `size`/`capacity` bookkeeping fields. -/
structure HSet (K : Type) where
  data : List (K × Nat)
  state : List Nat
  size : Nat
  capacity : Nat
deriving Repr, DecidableEq

variable {K : Type} [Inhabited K]

/-- Continuation condition of the probe loop in `prefix##_set_find_slot`:
`set->state[idx] == 1 && !eq_fn(set->data[idx].val, set->data[idx].size,
key, key_len)`.  Thanks to `&&` short-circuiting, `eq_fn` is only
consulted on occupied slots, exactly as in C. -/
def probeCont (eq : K → Nat → K → Nat → Bool) (s : HSet K)
    (key : K) (key_len : Nat) (idx : Nat) : Bool :=
  s.state.getD idx 0 == 1 &&
    !(eq (s.data.getD idx default).1 (s.data.getD idx default).2 key key_len)

/-- The `while` loop of `prefix##_set_find_slot`, with explicit fuel.
The C loop checks the condition at `idx`, then steps
`idx = (idx + 1) & mask` and returns `capacity` ("full") once `idx` wraps
back to `start`, which happens after exactly `capacity` condition checks;
calling with `fuel = capacity - 1` reproduces that behaviour exactly. -/
def probeLoop (eq : K → Nat → K → Nat → Bool) (s : HSet K)
    (key : K) (key_len : Nat) : Nat → Nat → Nat
  | 0, idx =>
      if probeCont eq s key key_len idx then s.capacity else idx
  | fuel + 1, idx =>
      if probeCont eq s key key_len idx then
        probeLoop eq s key key_len fuel ((idx + 1) &&& (s.capacity - 1))
      else idx

/-- The slot write shared by `insert` and the `resize` re-insertion
loop: `set->data[r] = e; set->state[r] = 1; set->size++;`. -/
def writeSlot (s : HSet K) (e : K × Nat) (r : Nat) : HSet K :=
  { s with data := s.data.set r e, state := s.state.set r 1, size := s.size + 1 }

variable (hash : K → Nat → Nat) (eq : K → Nat → K → Nat → Bool)

/-- `prefix##_set_find_slot` (the NULL-set check is not modelled: `set`
is always a valid reference here).  Starts at
`hash_fn(key, key_len) & mask` with `mask = capacity - 1` and probes
linearly; returns `capacity` as the "full" sentinel. -/
def set_find_slot (s : HSet K) (key : K) (key_len : Nat) : Nat :=
  let mask := s.capacity - 1
  probeLoop eq s key key_len mask (hash key key_len &&& mask)

/-- One iteration of the re-insertion loop in `prefix##_set_resize`,
for old-array index `i`.  The C writes `set->data[slot]`/`set->state[slot]`
without a bounds check (its `if (slot < 0) continue` is dead code because
`slot` has type `size_t`); the write is modelled with an explicit bound
check whose failure — the C out-of-bounds write, undefined behavior —
yields `none`. -/
def resizeStep (olddata : List (K × Nat)) (oldstate : List Nat)
    (acc : Option (HSet K)) (i : Nat) : Option (HSet K) :=
  match acc with
  | none => none
  | some s =>
    if oldstate.getD i 0 == 1 then
      let val := olddata.getD i default
      let slot := set_find_slot hash eq s val.1 val.2
      if slot < 0 then some s  -- dead in C: slot is size_t
      else if slot < s.capacity then some (writeSlot s val slot)
      else none
    else some s

/-- `prefix##_set_resize`: allocate zero-filled arrays of `newcap`
entries, reset `size` to 0, then re-insert every old slot with
`state == 1` in index order, finally freeing the old arrays (a no-op
here).  The `int` return value (0, or -1 on a NULL set) carries no
information in this model and is dropped. -/
def set_resize (s : HSet K) (newcap : Nat) : Option (HSet K) :=
  let fresh : HSet K :=
    { data := List.replicate newcap (default, 0),
      state := List.replicate newcap 0,
      size := 0,
      capacity := newcap }
  (List.range s.capacity).foldl (resizeStep hash eq s.data s.state) (some fresh)

/-- The tail of `prefix##_set_insert` after the load-factor check: find a
slot, reject if it is occupied (necessarily by an equal key), otherwise
write the entry and bump `size`.  The C check `if (idx< 0) return false`
is dead code (`idx` is `size_t`) and is kept literally; the unchecked
`set->state[idx]` read is modelled by `List.get?`, with `none` marking
the out-of-bounds access (undefined behavior) that occurs when `idx`
is the `capacity` sentinel. -/
def insertAt (s : HSet K) (key : K) (key_len : Nat) : Option (Bool × HSet K) :=
  let idx := set_find_slot hash eq s key key_len
  if idx < 0 then some (false, s)
  else
    match s.state.get? idx with
    | none => none
    | some st =>
      if st == 1 then some (false, s)  -- already exists
      else some (true, writeSlot s (key, key_len) idx)

/-- `prefix##_set_insert`: if `(double)size/capacity > 0.7`
(`HASHSET_MAX_LOAD_FACTOR`), first resize to `capacity * 2` (the resize
return code is ignored in C; a resize that performs an out-of-bounds
write poisons the whole call with `none` here), then insert via
`insertAt`. -/
def set_insert (s : HSet K) (key : K) (key_len : Nat) : Option (Bool × HSet K) :=
  if 10 * s.size > 7 * s.capacity then
    match set_resize hash eq s (s.capacity * 2) with
    | none => none
    | some s' => insertAt hash eq s' key key_len
  else insertAt hash eq s key key_len

/-- `prefix##_set_contains`: probe, then report whether the found slot is
occupied.  The dead `if (idx < 0) return false` check is kept; the
unchecked `set->state[idx]` read is `none` when out of bounds. -/
def set_contains (s : HSet K) (key : K) (key_len : Nat) : Option Bool :=
  let idx := set_find_slot hash eq s key key_len
  if idx < 0 then some false
  else
    match s.state.get? idx with
    | none => none
    | some st => some (st == 1)

/-- `prefix##_set_remove`: probe, return false unless the found slot is
occupied, otherwise mark it deleted (2) and decrement `size`.  The C
reads `set->state[idx]` with no bounds or sign check at all; `none`
marks the out-of-bounds access.  `size - 1` is `Nat` subtraction; in
every state where the branch is taken `size ≥ 1` holds (see `Wf`), so it
agrees with the `size_t` decrement. -/
def set_remove (s : HSet K) (key : K) (key_len : Nat) : Option (Bool × HSet K) :=
  let idx := set_find_slot hash eq s key key_len
  match s.state.get? idx with
  | none => none
  | some st =>
    if st != 1 then some (false, s)
    else some (true, { s with state := s.state.set idx 2, size := s.size - 1 })

/-- `HASHSET_INITIAL_CAPACITY` (default configuration). -/
def HASHSET_INITIAL_CAPACITY : Nat := 16

/-- The set produced by a successful `prefix##_set_init`: both arrays
`calloc`-ed (zero-filled) at `HASHSET_INITIAL_CAPACITY`, `size = 0`. -/
def initSet : HSet K :=
  { data := List.replicate HASHSET_INITIAL_CAPACITY (default, 0),
    state := List.replicate HASHSET_INITIAL_CAPACITY 0,
    size := 0,
    capacity := HASHSET_INITIAL_CAPACITY }

/-- Pointer-level view of `prefix##_set` for the lifecycle functions
`init`/`destroy`, where the nullness of `data`/`state` is observable:
`none` models a NULL pointer. -/
structure RawSet (K : Type) where
  data : Option (List (K × Nat))
  state : Option (List Nat)
  size : Nat
  capacity : Nat
deriving Repr, DecidableEq

/-- `prefix##_set_init` on a non-NULL set (the NULL case returns -1 and
is not modelled): sets `size = 0`, `capacity = HASHSET_INITIAL_CAPACITY`,
performs the two `HASHSET_CALLOC` calls — whose success is given by
`dataAllocOk`/`stateAllocOk`, a failed `calloc` returning NULL — and
then returns 0 unconditionally: the C code never inspects either
allocation result. -/
def set_init (dataAllocOk stateAllocOk : Bool) (s : RawSet K) : Int × RawSet K :=
  let s := { s with size := 0, capacity := HASHSET_INITIAL_CAPACITY }
  let s := { s with data :=
    if dataAllocOk then some (List.replicate HASHSET_INITIAL_CAPACITY (default, 0))
    else none }
  let s := { s with state :=
    if stateAllocOk then some (List.replicate HASHSET_INITIAL_CAPACITY 0)
    else none }
  (0, s)

/-- `prefix##_set_destroy` on a non-NULL set: `HASHSET_FREE` each
non-NULL array (the second component counts the `free` calls performed),
then NULL both pointers and zero `size` and `capacity`. -/
def set_destroy (s : RawSet K) : RawSet K × Nat :=
  let nfree := (if s.data.isSome then 1 else 0) + (if s.state.isSome then 1 else 0)
  ({ data := none, state := none, size := 0, capacity := 0 }, nfree)

/-- Number of occupied (`state == 1`) slots. -/
def occ (s : HSet K) : Nat := s.state.count 1

/-- Well-formedness of a table state, satisfied by every state reachable
through the API from a successful `init` (see `Reach.wf`): both arrays
have length `capacity`, `capacity` is a power of two and at least the
initial 16, not every slot is occupied, and `size` dominates the
occupied-slot count. -/
structure Wf (s : HSet K) : Prop where
  data_len : s.data.length = s.capacity
  state_len : s.state.length = s.capacity
  cap_pow : ∃ m, s.capacity = 2 ^ m
  cap_ge : 16 ≤ s.capacity
  occ_lt : occ s < s.capacity
  occ_le_size : occ s ≤ s.size

/-- States reachable from a successful `init` by `insert` and `remove`
calls that do not run into undefined behavior (`contains` never mutates
the set). -/
inductive Reach : HSet K → Prop
  | init : Reach initSet
  | insert {s : HSet K} {k : K} {len : Nat} {b : Bool} {s' : HSet K} :
      Reach s → set_insert hash eq s k len = some (b, s') → Reach s'
  | remove {s : HSet K} {k : K} {len : Nat} {b : Bool} {s' : HSet K} :
      Reach s → set_remove hash eq s k len = some (b, s') → Reach s'

/-- Run a sequence of inserts left to right, propagating undefined
behavior. -/
def insertAll (s : HSet K) : List (K × Nat) → Option (HSet K)
  | [] => some s
  | e :: es =>
    match set_insert hash eq s e.1 e.2 with
    | none => none
    | some (_, s') => insertAll s' es

/-- Constant hash function, a legitimate `hash_fn` instantiation (the
contract places no requirement on hash quality). -/
def hash0 : Nat → Nat → Nat := fun _ _ => 0

/-- Identity hash function on `Nat` keys. -/
def hashId : Nat → Nat → Nat := fun k _ => k

/-- Equality function for `Nat` keys ignoring the length tag, the exact
analogue of `eq_u32` from the header's example. -/
def eqNat : Nat → Nat → Nat → Nat → Bool := fun a _ b _ => a == b

/-!
Concrete states of the instantiation `(Nat, hash0, eqNat)` — the set
declared by `HASHSET_DECLARE` with a constant hash function — reached by
the four-call trace `insert 5; insert 7; remove 5; insert 7`
(see `bugTrace`).  Keys 5 and 7 collide under `hash0`, so 7 is stored in
slot 1 behind 5; removing 5 leaves a tombstone in slot 0 at which every
later probe for 7 stops. -/

/-- After `insert 5`: key 5 occupies slot 0. -/
def bugS1 : HSet Nat :=
  { data := (5, 0) :: List.replicate 15 (0, 0),
    state := 1 :: List.replicate 15 0,
    size := 1, capacity := 16 }

/-- After `insert 5; insert 7`: 5 in slot 0, 7 in slot 1. -/
def bugS2 : HSet Nat :=
  { data := (5, 0) :: (7, 0) :: List.replicate 14 (0, 0),
    state := 1 :: 1 :: List.replicate 14 0,
    size := 2, capacity := 16 }

/-- After `insert 5; insert 7; remove 5`: tombstone in slot 0, 7 still
occupying slot 1. -/
def bugS3 : HSet Nat :=
  { data := (5, 0) :: (7, 0) :: List.replicate 14 (0, 0),
    state := 2 :: 1 :: List.replicate 14 0,
    size := 1, capacity := 16 }

/-- After `insert 5; insert 7; remove 5; insert 7`: the second
`insert 7` stops at the slot-0 tombstone, so key 7 now occupies both
slot 0 and slot 1, and `size = 2` although only one key is live. -/
def bugState : HSet Nat :=
  { data := (7, 0) :: (7, 0) :: List.replicate 14 (0, 0),
    state := 1 :: 1 :: List.replicate 14 0,
    size := 2, capacity := 16 }

/-- A `RawSet` as found before `init` (contents irrelevant to `init`,
which overwrites every field). -/
def rawSet0 : RawSet Nat := { data := none, state := none, size := 0, capacity := 0 }

/-- The empty capacity-2 table produced by `resize(set, 2)` on a fresh
set (a direct pre-sizing call, which the API allows with any `newcap`). -/
def pair0 : HSet Nat :=
  { data := List.replicate 2 (0, 0), state := List.replicate 2 0,
    size := 0, capacity := 2 }

/-- A completely occupied table: both slots of `pair0` filled by
`insert 0; insert 1` under the identity hash. -/
def fullPair : HSet Nat :=
  { data := [(0, 0), (1, 0)], state := [1, 1], size := 2, capacity := 2 }

/-- Twelve distinct keys with length tag 0. -/
def keys12 : List (Nat × Nat) := (List.range 12).map (fun i => (i, 0))

/-- The fresh capacity-16 set after inserting `keys12` under the
identity hash: slots 0–11 occupied, no resize yet (the load factor only
exceeds 0.7 once `size` reaches 12). -/
def s12 : HSet Nat :=
  { data := (List.range 12).map (fun i => (i, 0)) ++ List.replicate 4 (0, 0),
    state := List.replicate 12 1 ++ List.replicate 4 0,
    size := 12, capacity := 16 }

/-- The state after the 13th call `insert 0` on `s12`: the call rejects
the duplicate key 0 (returns false), but only after having doubled the
capacity to 32 and rehashed every entry. -/
def s12grown : HSet Nat :=
  { data := (List.range 12).map (fun i => (i, 0)) ++ List.replicate 20 (0, 0),
    state := List.replicate 12 1 ++ List.replicate 20 0,
    size := 12, capacity := 32 }


variable {K : Type} [Inhabited K]
variable (hash : K → Nat → Nat) (eq : K → Nat → K → Nat → Bool)

theorem probeLoop_of_stop {s : HSet K} {key : K} {len idx : Nat}
    (h : probeCont eq s key len idx = false) (fuel : Nat) :
    probeLoop eq s key len fuel idx = idx := by
  cases fuel <;> simp [probeLoop, h]

theorem probeLoop_full {s : HSet K} {key : K} {len : Nat} {m : Nat}
    (hc : s.capacity = 2 ^ m) :
    ∀ fuel idx, idx < s.capacity →
      (∀ d, d ≤ fuel → probeCont eq s key len ((idx + d) % s.capacity) = true) →
      probeLoop eq s key len fuel idx = s.capacity := by
  have hpos : 0 < s.capacity := by
    rw [hc]; exact Nat.pos_pow_of_pos m (by decide)
  intro fuel
  induction fuel with
  | zero =>
    intro idx hidx h
    have h0 := h 0 (Nat.le_refl 0)
    rw [Nat.add_zero, Nat.mod_eq_of_lt hidx] at h0
    simp [probeLoop, h0]
  | succ fuel ih =>
    intro idx hidx h
    have h0 := h 0 (Nat.zero_le _)
    rw [Nat.add_zero, Nat.mod_eq_of_lt hidx] at h0
    have hmask : (idx + 1) &&& (s.capacity - 1) = (idx + 1) % s.capacity := by
      rw [hc]; exact Nat.and_pow_two_sub_one_eq_mod _ _
    rw [probeLoop, if_pos h0, hmask]
    apply ih _ (Nat.mod_lt _ hpos)
    intro d hd
    rw [Nat.mod_add_mod]
    have e : idx + 1 + d = idx + (d + 1) := by omega
    rw [e]
    exact h (d + 1) (Nat.succ_le_succ hd)

theorem probeLoop_first_stop {s : HSet K} {key : K} {len : Nat} {m : Nat}
    (hc : s.capacity = 2 ^ m) :
    ∀ d fuel idx, idx < s.capacity → d ≤ fuel →
      probeCont eq s key len ((idx + d) % s.capacity) = false →
      (∀ d', d' < d → probeCont eq s key len ((idx + d') % s.capacity) = true) →
      probeLoop eq s key len fuel idx = (idx + d) % s.capacity := by
  have hpos : 0 < s.capacity := by
    rw [hc]; exact Nat.pos_pow_of_pos m (by decide)
  intro d
  induction d with
  | zero =>
    intro fuel idx hidx _ hstop _
    rw [Nat.add_zero, Nat.mod_eq_of_lt hidx] at hstop ⊢
    exact probeLoop_of_stop eq hstop fuel
  | succ d ih =>
    intro fuel idx hidx hdf hstop hcont
    have h0 : probeCont eq s key len idx = true := by
      have h := hcont 0 (Nat.succ_pos d)
      rwa [Nat.add_zero, Nat.mod_eq_of_lt hidx] at h
    obtain ⟨fuel', rfl⟩ : ∃ f, fuel = f + 1 := ⟨fuel - 1, by omega⟩
    have hmask : (idx + 1) &&& (s.capacity - 1) = (idx + 1) % s.capacity := by
      rw [hc]; exact Nat.and_pow_two_sub_one_eq_mod _ _
    rw [probeLoop, if_pos h0, hmask]
    have e1 : (idx + 1) % s.capacity + d = (idx + 1) % s.capacity + d := rfl
    have hgoal : ((idx + 1) % s.capacity + d) % s.capacity = (idx + (d + 1)) % s.capacity := by
      rw [Nat.mod_add_mod]
      have e : idx + 1 + d = idx + (d + 1) := by omega
      rw [e]
    rw [← hgoal] at hstop ⊢
    apply ih _ _ (Nat.mod_lt _ hpos) (by omega) hstop
    intro d' hd'
    have hconv : ((idx + 1) % s.capacity + d') % s.capacity = (idx + (d' + 1)) % s.capacity := by
      rw [Nat.mod_add_mod]
      have e : idx + 1 + d' = idx + (d' + 1) := by omega
      rw [e]
    rw [hconv]
    exact hcont (d' + 1) (by omega)

/-- `set_find_slot` with the mask rewritten to a modulus (legitimate
because `capacity` is a power of two). -/
theorem find_slot_eq {s : HSet K} {key : K} {len : Nat} {m : Nat}
    (hc : s.capacity = 2 ^ m) :
    set_find_slot hash eq s key len =
      probeLoop eq s key len (s.capacity - 1) (hash key len % s.capacity) := by
  show probeLoop eq s key len (s.capacity - 1)
    (hash key len &&& (s.capacity - 1)) = _
  rw [show hash key len &&& (s.capacity - 1) = hash key len % s.capacity from by
    rw [hc]; exact Nat.and_pow_two_sub_one_eq_mod _ _]

/-- If every slot keeps the probe going, `find_slot` returns the
`capacity` sentinel. -/
theorem find_slot_full {s : HSet K} {key : K} {len : Nat} {m : Nat}
    (hc : s.capacity = 2 ^ m)
    (hall : ∀ i, i < s.capacity → probeCont eq s key len i = true) :
    set_find_slot hash eq s key len = s.capacity := by
  have hpos : 0 < s.capacity := by
    rw [hc]; exact Nat.pos_pow_of_pos m (by decide)
  rw [find_slot_eq hash eq hc]
  exact probeLoop_full eq hc _ _ (Nat.mod_lt _ hpos)
    (fun d _ => hall _ (Nat.mod_lt _ hpos))

/-- If some slot stops the probe, `find_slot` returns the first stopping
slot on the probe sequence: an in-range index at offset `d` from the
start, with every earlier offset probed through. -/
theorem find_slot_spec {s : HSet K} {key : K} {len : Nat} {m : Nat}
    (hc : s.capacity = 2 ^ m) {i0 : Nat} (hi0 : i0 < s.capacity)
    (hstop0 : probeCont eq s key len i0 = false) :
    ∃ d, d < s.capacity ∧
      set_find_slot hash eq s key len =
        (hash key len % s.capacity + d) % s.capacity ∧
      probeCont eq s key len (set_find_slot hash eq s key len) = false ∧
      ∀ d', d' < d →
        probeCont eq s key len
          ((hash key len % s.capacity + d') % s.capacity) = true := by
  have hpos : 0 < s.capacity := by
    rw [hc]; exact Nat.pos_pow_of_pos m (by decide)
  have hstlt : hash key len % s.capacity < s.capacity := Nat.mod_lt _ hpos
  have hwit : probeCont eq s key len
      ((hash key len % s.capacity +
        (if hash key len % s.capacity ≤ i0 then i0 - hash key len % s.capacity
         else s.capacity + i0 - hash key len % s.capacity)) %
          s.capacity) = false := by
    by_cases hcase : hash key len % s.capacity ≤ i0
    · rw [if_pos hcase, Nat.add_sub_cancel' hcase, Nat.mod_eq_of_lt hi0]
      exact hstop0
    · rw [if_neg hcase, Nat.add_sub_cancel' (by omega), Nat.add_mod_left,
        Nat.mod_eq_of_lt hi0]
      exact hstop0
  have hwlt : (if hash key len % s.capacity ≤ i0 then
      i0 - hash key len % s.capacity
      else s.capacity + i0 - hash key len % s.capacity) < s.capacity := by
    by_cases hcase : hash key len % s.capacity ≤ i0 <;> simp [hcase] <;> omega
  have hex : ∃ d, probeCont eq s key len
      ((hash key len % s.capacity + d) % s.capacity) = false := ⟨_, hwit⟩
  have hd_lt : Nat.find hex < s.capacity :=
    Nat.lt_of_le_of_lt (Nat.find_min' hex hwit) hwlt
  have hcont : ∀ d', d' < Nat.find hex →
      probeCont eq s key len
        ((hash key len % s.capacity + d') % s.capacity) = true := by
    intro d' hd'
    have h := Nat.find_min hex hd'
    cases hb : probeCont eq s key len
        ((hash key len % s.capacity + d') % s.capacity) with
    | false => exact absurd hb h
    | true => rfl
  have hres : set_find_slot hash eq s key len =
      (hash key len % s.capacity + Nat.find hex) % s.capacity := by
    rw [find_slot_eq hash eq hc]
    exact probeLoop_first_stop eq hc _ _ _ (Nat.mod_lt _ hpos)
      (by omega) (Nat.find_spec hex) hcont
  exact ⟨Nat.find hex, hd_lt, hres, by rw [hres]; exact Nat.find_spec hex, hcont⟩


/-- `List.get?` at an in-range index, phrased through `getD`. -/
theorem get?_eq_getD {α : Type} (l : List α) (i : Nat) (d : α)
    (h : i < l.length) : l.get? i = some (l.getD i d) := by
  rw [List.get?_eq_getElem?, List.getElem?_eq_getElem h,
    List.getD_eq_getElem?_getD, List.getElem?_eq_getElem h]
  rfl

theorem getD_set_self {α : Type} (l : List α) (i : Nat) (a d : α)
    (h : i < l.length) : (l.set i a).getD i d = a := by
  rw [List.getD_eq_getElem?_getD, List.getElem?_set_self (by simpa using h)]
  rfl

theorem getD_set_ne {α : Type} (l : List α) {i j : Nat} (a d : α)
    (h : i ≠ j) : (l.set i a).getD j d = l.getD j d := by
  rw [List.getD_eq_getElem?_getD, List.getElem?_set_ne h,
    ← List.getD_eq_getElem?_getD]

variable {K : Type} [Inhabited K]
variable (hash : K → Nat → Nat) (eq : K → Nat → K → Nat → Bool)

theorem probeCont_eq_false {s : HSet K} {key : K} {len i : Nat} :
    probeCont eq s key len i = false ↔
      s.state.getD i 0 ≠ 1 ∨
        eq (s.data.getD i default).1 (s.data.getD i default).2 key len = true := by
  constructor
  · intro h
    by_cases h1 : s.state.getD i 0 = 1
    · right
      unfold probeCont at h
      rw [h1] at h
      simpa using h
    · exact Or.inl h1
  · intro h
    unfold probeCont
    rcases h with h | h
    · have hb : (s.state.getD i 0 == 1) = false := by
        cases hb : (s.state.getD i 0 == 1)
        · rfl
        · exact absurd (by simpa using hb) h
      rw [hb]
      rfl
    · rw [h]
      simp

theorem probeCont_eq_true {s : HSet K} {key : K} {len i : Nat} :
    probeCont eq s key len i = true ↔
      s.state.getD i 0 = 1 ∧
        eq (s.data.getD i default).1 (s.data.getD i default).2 key len = false := by
  constructor
  · intro h
    by_cases h1 : s.state.getD i 0 = 1
    · refine ⟨h1, ?_⟩
      unfold probeCont at h
      rw [h1] at h
      simpa using h
    · exfalso
      have hb : (s.state.getD i 0 == 1) = false := by
        cases hb : (s.state.getD i 0 == 1)
        · rfl
        · exact absurd (by simpa using hb) h1
      unfold probeCont at h
      rw [hb] at h
      simp at h
  · rintro ⟨h1, h2⟩
    unfold probeCont
    rw [h1, h2]
    rfl

/-- If not every slot is occupied, some in-range slot is not occupied. -/
theorem exists_not_occupied {s : HSet K}
    (hslen : s.state.length = s.capacity) (hocc : occ s < s.capacity) :
    ∃ i, i < s.capacity ∧ s.state.getD i 0 ≠ 1 := by
  by_contra hall
  push_neg at hall
  have hcount : s.state.count 1 = s.state.length := by
    rw [List.count_eq_length]
    intro b hb
    obtain ⟨i, hi, hig⟩ := List.mem_iff_getElem.1 hb
    have hgd : s.state.getD i 0 = b := by
      rw [List.getD_eq_getElem?_getD, List.getElem?_eq_getElem hi, hig]
      rfl
    have := hall i (by omega)
    omega
  unfold occ at hocc
  omega

/-- A slot that is not occupied stops the probe, so `find_slot` returns
an in-range index whenever the table is not completely occupied. -/
theorem find_slot_lt {s : HSet K} {k : K} {l : Nat} {m : Nat}
    (hc : s.capacity = 2 ^ m)
    (hslen : s.state.length = s.capacity) (hocc : occ s < s.capacity) :
    set_find_slot hash eq s k l < s.capacity := by
  obtain ⟨i0, hi0, hne⟩ := exists_not_occupied hslen hocc
  obtain ⟨d, _, hres, _, _⟩ := find_slot_spec hash eq hc hi0
    ((probeCont_eq_false eq).2 (Or.inl hne))
  rw [hres]
  exact Nat.mod_lt _ (by rw [hc]; exact Nat.pos_pow_of_pos m (by decide))

/-- Whenever `find_slot` returns an in-range index, that slot stops the
probe: it is either not occupied, or occupied by a matching key. -/
theorem find_slot_stop {s : HSet K} {key : K} {len : Nat} {m : Nat}
    (hc : s.capacity = 2 ^ m)
    (hlt : set_find_slot hash eq s key len < s.capacity) :
    probeCont eq s key len (set_find_slot hash eq s key len) = false := by
  by_cases hall : ∀ i, i < s.capacity → probeCont eq s key len i = true
  · rw [find_slot_full hash eq hc hall] at hlt
    omega
  · push_neg at hall
    obtain ⟨i0, hi0, hne⟩ := hall
    obtain ⟨d, _, _, hstop, _⟩ := find_slot_spec hash eq hc hi0
      (by cases h : probeCont eq s key len i0
          · rfl
          · exact absurd h hne)
    exact hstop

/-- `contains` with an in-range probe result reports exactly whether the
found slot is occupied. -/
theorem set_contains_eq {s : HSet K} {key : K} {len : Nat}
    (h : set_find_slot hash eq s key len < s.state.length) :
    set_contains hash eq s key len =
      some (s.state.getD (set_find_slot hash eq s key len) 0 == 1) := by
  show (if set_find_slot hash eq s key len < 0 then some false
    else match s.state.get? (set_find_slot hash eq s key len) with
      | none => none
      | some st => some (st == 1)) = _
  rw [if_neg (Nat.not_lt_zero _), get?_eq_getD _ _ 0 h]

/-- `insertAt` with an in-range probe result, as a two-way branch on the
occupancy of the found slot. -/
theorem insertAt_eq {s : HSet K} {key : K} {len : Nat}
    (h : set_find_slot hash eq s key len < s.state.length) :
    insertAt hash eq s key len =
      if s.state.getD (set_find_slot hash eq s key len) 0 == 1 then
        some (false, s)
      else
        some (true, writeSlot s (key, len) (set_find_slot hash eq s key len)) := by
  show (if set_find_slot hash eq s key len < 0 then some (false, s)
    else match s.state.get? (set_find_slot hash eq s key len) with
      | none => none
      | some st =>
        if st == 1 then some (false, s)
        else some (true, writeSlot s (key, len) (set_find_slot hash eq s key len))) = _
  rw [if_neg (Nat.not_lt_zero _), get?_eq_getD _ _ 0 h]

theorem insertAt_occupied {s : HSet K} {key : K} {len : Nat}
    (h : set_find_slot hash eq s key len < s.state.length)
    (hst : s.state.getD (set_find_slot hash eq s key len) 0 = 1) :
    insertAt hash eq s key len = some (false, s) := by
  rw [insertAt_eq hash eq h, if_pos (by rw [hst]; rfl)]

theorem insertAt_free {s : HSet K} {key : K} {len : Nat}
    (h : set_find_slot hash eq s key len < s.state.length)
    (hst : s.state.getD (set_find_slot hash eq s key len) 0 ≠ 1) :
    insertAt hash eq s key len =
      some (true, writeSlot s (key, len) (set_find_slot hash eq s key len)) := by
  rw [insertAt_eq hash eq h,
    if_neg (fun hb => hst (by simpa using hb))]

/-- `remove` with an in-range probe result, as a two-way branch on the
occupancy of the found slot. -/
theorem set_remove_eq {s : HSet K} {key : K} {len : Nat}
    (h : set_find_slot hash eq s key len < s.state.length) :
    set_remove hash eq s key len =
      if s.state.getD (set_find_slot hash eq s key len) 0 == 1 then
        some (true, { s with
          state := s.state.set (set_find_slot hash eq s key len) 2,
          size := s.size - 1 })
      else some (false, s) := by
  show (match s.state.get? (set_find_slot hash eq s key len) with
    | none => none
    | some st =>
      if st != 1 then some (false, s)
      else some (true, { s with
        state := s.state.set (set_find_slot hash eq s key len) 2,
        size := s.size - 1 })) = _
  rw [get?_eq_getD _ _ 0 h]
  cases hb : (s.state.getD (set_find_slot hash eq s key len) 0 == 1) <;>
    simp [hb, -List.getD_eq_getElem?_getD] <;> simpa using hb


variable {K : Type} [Inhabited K]
variable (hash : K → Nat → Nat) (eq : K → Nat → K → Nat → Bool)

theorem writeSlot_capacity (s : HSet K) (e : K × Nat) (r : Nat) :
    (writeSlot s e r).capacity = s.capacity := rfl

theorem writeSlot_size (s : HSet K) (e : K × Nat) (r : Nat) :
    (writeSlot s e r).size = s.size + 1 := rfl

theorem writeSlot_state_length (s : HSet K) (e : K × Nat) (r : Nat) :
    (writeSlot s e r).state.length = s.state.length := by
  simp [writeSlot]

theorem writeSlot_data_length (s : HSet K) (e : K × Nat) (r : Nat) :
    (writeSlot s e r).data.length = s.data.length := by
  simp [writeSlot]

theorem writeSlot_state_self {s : HSet K} (e : K × Nat) {r : Nat}
    (h : r < s.state.length) : (writeSlot s e r).state.getD r 0 = 1 :=
  getD_set_self _ _ _ _ h

theorem writeSlot_state_ne {s : HSet K} (e : K × Nat) {r i : Nat}
    (h : r ≠ i) : (writeSlot s e r).state.getD i 0 = s.state.getD i 0 :=
  getD_set_ne _ _ _ h

theorem writeSlot_data_self {s : HSet K} {e : K × Nat} {r : Nat}
    (h : r < s.data.length) : (writeSlot s e r).data.getD r default = e :=
  getD_set_self _ _ _ _ h

theorem writeSlot_data_ne {s : HSet K} (e : K × Nat) {r i : Nat}
    (h : r ≠ i) : (writeSlot s e r).data.getD i default = s.data.getD i default :=
  getD_set_ne _ _ _ h

/-- Two tables agreeing on slot `i` probe identically at `i`. -/
theorem probeCont_congr {a b : HSet K} {k : K} {l i : Nat}
    (hst : b.state.getD i 0 = a.state.getD i 0)
    (hdt : b.data.getD i default = a.data.getD i default) :
    probeCont eq b k l i = probeCont eq a k l i := by
  unfold probeCont
  rw [hst, hdt]

/-- Packaging of `probeLoop_first_stop` at the `find_slot` call. -/
theorem find_slot_of_first_stop {s : HSet K} {key : K} {len : Nat} {m : Nat}
    (hc : s.capacity = 2 ^ m) {d : Nat} (hd : d < s.capacity)
    (hstop : probeCont eq s key len
      ((hash key len % s.capacity + d) % s.capacity) = false)
    (hcont : ∀ d', d' < d → probeCont eq s key len
      ((hash key len % s.capacity + d') % s.capacity) = true) :
    set_find_slot hash eq s key len =
      (hash key len % s.capacity + d) % s.capacity := by
  have hpos : 0 < s.capacity := by
    rw [hc]; exact Nat.pos_pow_of_pos m (by decide)
  rw [find_slot_eq hash eq hc]
  exact probeLoop_first_stop eq hc d _ _ (Nat.mod_lt _ hpos) (by omega)
    hstop hcont

/-- Offsets below the capacity are determined by the probed index. -/
theorem probe_offset_inj {c st d d' : Nat} (hpos : 0 < c)
    (hd : d < c) (hd' : d' < c)
    (h : (st + d) % c = (st + d') % c) : d = d' := by
  have h2 : d % c = d' % c := Nat.ModEq.add_left_cancel' st h
  rwa [Nat.mod_eq_of_lt hd, Nat.mod_eq_of_lt hd'] at h2

/-- An out-of-range probe result makes `contains` undefined behavior. -/
theorem set_contains_none {s : HSet K} {key : K} {len : Nat}
    (h : s.state.length ≤ set_find_slot hash eq s key len) :
    set_contains hash eq s key len = none := by
  show (if set_find_slot hash eq s key len < 0 then some false
    else match s.state.get? (set_find_slot hash eq s key len) with
      | none => none
      | some st => some (st == 1)) = _
  rw [if_neg (Nat.not_lt_zero _), List.get?_eq_none.2 h]

/-- The first-stop description of an in-range `find_slot` result. -/
theorem find_slot_first_stop_of_lt {s : HSet K} {key : K} {len : Nat}
    {m : Nat} (hc : s.capacity = 2 ^ m)
    (hlt : set_find_slot hash eq s key len < s.capacity) :
    ∃ d, d < s.capacity ∧
      set_find_slot hash eq s key len =
        (hash key len % s.capacity + d) % s.capacity ∧
      probeCont eq s key len (set_find_slot hash eq s key len) = false ∧
      ∀ d', d' < d → probeCont eq s key len
        ((hash key len % s.capacity + d') % s.capacity) = true := by
  by_cases hall : ∀ i, i < s.capacity → probeCont eq s key len i = true
  · rw [find_slot_full hash eq hc hall] at hlt
    omega
  · push_neg at hall
    obtain ⟨i0, hi0, hne0⟩ := hall
    exact find_slot_spec hash eq hc hi0
      (by cases h : probeCont eq s key len i0
          · rfl
          · exact absurd h hne0)

/-- After writing an entry at the slot `find_slot` chose for it, that
entry is reported present (the key equality needs to be reflexive at the
written key). -/
theorem contains_writeSlot_self {s : HSet K} {k : K} {len : Nat} {m : Nat}
    (hc : s.capacity = 2 ^ m)
    (hdlen : s.data.length = s.capacity) (hslen : s.state.length = s.capacity)
    (hrefl : eq k len k len = true)
    (hlt : set_find_slot hash eq s k len < s.capacity) :
    set_contains hash eq
      (writeSlot s (k, len) (set_find_slot hash eq s k len)) k len =
      some true := by
  have hpos : 0 < s.capacity := by
    rw [hc]; exact Nat.pos_pow_of_pos m (by decide)
  obtain ⟨d, hd, hres, hstop, hcont⟩ :=
    find_slot_first_stop_of_lt hash eq hc hlt
  have hcap' : (writeSlot s (k, len) (set_find_slot hash eq s k len)).capacity
      = s.capacity := rfl
  have hstop' : probeCont eq
      (writeSlot s (k, len) (set_find_slot hash eq s k len)) k len
      ((hash k len % s.capacity + d) % s.capacity) = false := by
    rw [← hres]
    apply (probeCont_eq_false eq).2
    right
    rw [writeSlot_data_self (by omega)]
    exact hrefl
  have hcont' : ∀ d', d' < d → probeCont eq
      (writeSlot s (k, len) (set_find_slot hash eq s k len)) k len
      ((hash k len % s.capacity + d') % s.capacity) = true := by
    intro d' hd'
    have hne : set_find_slot hash eq s k len ≠
        (hash k len % s.capacity + d') % s.capacity := by
      rw [hres]
      intro hcontra
      exact absurd (probe_offset_inj hpos hd (by omega) hcontra) (by omega)
    rw [probeCont_congr eq (a := s) (writeSlot_state_ne _ hne)
      (writeSlot_data_ne _ hne)]
    exact hcont d' hd'
  have hres' : set_find_slot hash eq
      (writeSlot s (k, len) (set_find_slot hash eq s k len)) k len =
      set_find_slot hash eq s k len := by
    have h2 := find_slot_of_first_stop hash eq
      (s := writeSlot s (k, len) (set_find_slot hash eq s k len))
      (m := m) hc hd hstop' hcont'
    rw [h2, writeSlot_capacity]
    exact hres.symm
  rw [set_contains_eq hash eq (by
    rw [hres', writeSlot_state_length, hslen]
    exact hlt)]
  rw [hres', writeSlot_state_self _ (by omega)]
  rfl


variable {K : Type} [Inhabited K]
variable (hash : K → Nat → Nat) (eq : K → Nat → K → Nat → Bool)

/-- A `contains = true` verdict means the probe result is in range and
the found slot is occupied. -/
theorem set_contains_true_elim {s : HSet K} {key : K} {len : Nat}
    (h : set_contains hash eq s key len = some true) :
    set_find_slot hash eq s key len < s.state.length ∧
      s.state.getD (set_find_slot hash eq s key len) 0 = 1 := by
  by_cases hlt : set_find_slot hash eq s key len < s.state.length
  · refine ⟨hlt, ?_⟩
    rw [set_contains_eq hash eq hlt] at h
    simpa using h
  · rw [set_contains_none hash eq (by omega)] at h
    cases h

/-- Writing an entry where `find_slot` directed it never makes a
previously present entry disappear (`eq` must be symmetric and
transitive so that overwriting an equal key preserves matches). -/
theorem contains_writeSlot_preserve {s : HSet K} {e' e : K × Nat} {m : Nat}
    (hc : s.capacity = 2 ^ m)
    (hdlen : s.data.length = s.capacity) (hslen : s.state.length = s.capacity)
    (eqSym : ∀ a la b lb, eq a la b lb = eq b lb a la)
    (eqTrans : ∀ a la b lb c lc,
      eq a la b lb = true → eq b lb c lc = true → eq a la c lc = true)
    (hrlt : set_find_slot hash eq s e'.1 e'.2 < s.capacity)
    (hmem : set_contains hash eq s e.1 e.2 = some true) :
    set_contains hash eq
      (writeSlot s e' (set_find_slot hash eq s e'.1 e'.2)) e.1 e.2 =
      some true := by
  have hpos : 0 < s.capacity := by
    rw [hc]; exact Nat.pos_pow_of_pos m (by decide)
  obtain ⟨hjlen, hj1⟩ := set_contains_true_elim hash eq hmem
  have hjlt : set_find_slot hash eq s e.1 e.2 < s.capacity := by
    rw [← hslen]; exact hjlen
  obtain ⟨d, hd, hres, hstop, hcontd⟩ :=
    find_slot_first_stop_of_lt hash eq hc hjlt
  have hstopr := find_slot_stop hash eq hc hrlt
  have hPd : probeCont eq
      (writeSlot s e' (set_find_slot hash eq s e'.1 e'.2)) e.1 e.2
      ((hash e.1 e.2 % s.capacity + d) % s.capacity) = false := by
    rw [← hres]
    by_cases hreq : set_find_slot hash eq s e'.1 e'.2 =
        set_find_slot hash eq s e.1 e.2
    · apply (probeCont_eq_false eq).2
      right
      rw [← hreq, writeSlot_data_self (by omega)]
      have h1 : s.state.getD (set_find_slot hash eq s e'.1 e'.2) 0 = 1 := by
        rw [hreq]; exact hj1
      have hm' : eq (s.data.getD (set_find_slot hash eq s e'.1 e'.2) default).1
          (s.data.getD (set_find_slot hash eq s e'.1 e'.2) default).2
          e'.1 e'.2 = true := by
        rcases (probeCont_eq_false eq).1 hstopr with h | h
        · exact absurd h1 h
        · exact h
      have hm : eq (s.data.getD (set_find_slot hash eq s e'.1 e'.2) default).1
          (s.data.getD (set_find_slot hash eq s e'.1 e'.2) default).2
          e.1 e.2 = true := by
        rcases (probeCont_eq_false eq).1 hstop with h | h
        · exact absurd hj1 h
        · rw [hreq]; exact h
      exact eqTrans _ _ _ _ _ _ (by rw [eqSym]; exact hm') hm
    · rw [probeCont_congr eq (a := s) (writeSlot_state_ne _ hreq)
        (writeSlot_data_ne _ hreq)]
      exact hstop
  have hexP : ∃ d0, probeCont eq
      (writeSlot s e' (set_find_slot hash eq s e'.1 e'.2)) e.1 e.2
      ((hash e.1 e.2 % s.capacity + d0) % s.capacity) = false := ⟨d, hPd⟩
  have hd0le : Nat.find hexP ≤ d := Nat.find_min' hexP hPd
  have hd0lt : Nat.find hexP < s.capacity := Nat.lt_of_le_of_lt hd0le hd
  have hcont0 : ∀ d'', d'' < Nat.find hexP → probeCont eq
      (writeSlot s e' (set_find_slot hash eq s e'.1 e'.2)) e.1 e.2
      ((hash e.1 e.2 % s.capacity + d'') % s.capacity) = true := by
    intro d'' h''
    have h := Nat.find_min hexP h''
    cases hb : probeCont eq
        (writeSlot s e' (set_find_slot hash eq s e'.1 e'.2)) e.1 e.2
        ((hash e.1 e.2 % s.capacity + d'') % s.capacity) with
    | false => exact absurd hb h
    | true => rfl
  have hres0 : set_find_slot hash eq
      (writeSlot s e' (set_find_slot hash eq s e'.1 e'.2)) e.1 e.2 =
      (hash e.1 e.2 % s.capacity + Nat.find hexP) % s.capacity := by
    have h2 := find_slot_of_first_stop hash eq
      (s := writeSlot s e' (set_find_slot hash eq s e'.1 e'.2))
      (m := m) hc hd0lt (Nat.find_spec hexP) hcont0
    rw [h2, writeSlot_capacity]
  have hstate1 : (writeSlot s e' (set_find_slot hash eq s e'.1 e'.2)).state.getD
      ((hash e.1 e.2 % s.capacity + Nat.find hexP) % s.capacity) 0 = 1 := by
    by_cases hj0r : set_find_slot hash eq s e'.1 e'.2 =
        (hash e.1 e.2 % s.capacity + Nat.find hexP) % s.capacity
    · rw [← hj0r]
      exact writeSlot_state_self _ (by omega)
    · rw [writeSlot_state_ne _ hj0r]
      rcases Nat.lt_or_ge (Nat.find hexP) d with hlt' | hge
      · exact ((probeCont_eq_true eq).1 (hcontd _ hlt')).1
      · have hEq : Nat.find hexP = d := Nat.le_antisymm hd0le hge
        rw [hEq, ← hres]
        exact hj1
  rw [set_contains_eq hash eq (by
    rw [hres0, writeSlot_state_length, hslen]
    exact Nat.mod_lt _ hpos)]
  rw [hres0, hstate1]
  rfl

/-- If no occupied slot matches the key and the table is not full,
`contains` answers `false`. -/
theorem set_contains_no_match {s : HSet K} {key : K} {len : Nat} {m : Nat}
    (hc : s.capacity = 2 ^ m) (hslen : s.state.length = s.capacity)
    (hocc : occ s < s.capacity)
    (hno : ∀ i, i < s.capacity → s.state.getD i 0 = 1 →
      eq (s.data.getD i default).1 (s.data.getD i default).2 key len = false) :
    set_contains hash eq s key len = some false := by
  have hlt := find_slot_lt hash eq (k := key) (l := len) hc hslen hocc
  have hstop := find_slot_stop hash eq hc hlt
  have hne1 : s.state.getD (set_find_slot hash eq s key len) 0 ≠ 1 := by
    intro h1
    rcases (probeCont_eq_false eq).1 hstop with h | h
    · exact h h1
    · rw [hno _ hlt h1] at h
      cases h
  rw [set_contains_eq hash eq (by rw [hslen]; exact hlt)]
  have hb : (s.state.getD (set_find_slot hash eq s key len) 0 == 1) = false := by
    cases hb : (s.state.getD (set_find_slot hash eq s key len) 0 == 1)
    · rfl
    · exact absurd (by simpa using hb) hne1
  rw [hb]

/-- Immediately after `remove(key, len)` — hit or miss — `contains(key,
len)` answers `false`, as long as the table is not completely occupied. -/
theorem remove_then_contains_false {s : HSet K} {key : K} {len : Nat} {m : Nat}
    (hc : s.capacity = 2 ^ m) (hslen : s.state.length = s.capacity)
    (hocc : occ s < s.capacity) :
    ∃ b s', set_remove hash eq s key len = some (b, s') ∧
      set_contains hash eq s' key len = some false := by
  have hpos : 0 < s.capacity := by
    rw [hc]; exact Nat.pos_pow_of_pos m (by decide)
  have hlt := find_slot_lt hash eq (k := key) (l := len) hc hslen hocc
  have hlen : set_find_slot hash eq s key len < s.state.length := by
    rw [hslen]; exact hlt
  by_cases hst : s.state.getD (set_find_slot hash eq s key len) 0 = 1
  · refine ⟨true, _, by
      rw [set_remove_eq hash eq hlen, if_pos (by rw [hst]; rfl)], ?_⟩
    obtain ⟨d, hd, hres, hstop, hcontd⟩ :=
      find_slot_first_stop_of_lt hash eq hc hlt
    have hstop2 : probeCont eq
        { s with state := s.state.set (set_find_slot hash eq s key len) 2,
                 size := s.size - 1 } key len
        ((hash key len % s.capacity + d) % s.capacity) = false := by
      rw [← hres]
      apply (probeCont_eq_false eq).2
      left
      show (s.state.set (set_find_slot hash eq s key len) 2).getD
        (set_find_slot hash eq s key len) 0 ≠ 1
      rw [getD_set_self _ _ _ _ hlen]
      omega
    have hcont2 : ∀ d', d' < d → probeCont eq
        { s with state := s.state.set (set_find_slot hash eq s key len) 2,
                 size := s.size - 1 } key len
        ((hash key len % s.capacity + d') % s.capacity) = true := by
      intro d' hd'
      have hne : set_find_slot hash eq s key len ≠
          (hash key len % s.capacity + d') % s.capacity := by
        rw [hres]
        intro hcontra
        exact absurd (probe_offset_inj hpos hd (by omega) hcontra) (by omega)
      have hcg := probeCont_congr eq (a := s)
        (b := { s with state := s.state.set (set_find_slot hash eq s key len) 2,
                       size := s.size - 1 })
        (k := key) (l := len)
        (i := (hash key len % s.capacity + d') % s.capacity)
        (getD_set_ne _ _ _ hne) rfl
      rw [hcg]
      exact hcontd d' hd'
    have hres2 : set_find_slot hash eq
        { s with state := s.state.set (set_find_slot hash eq s key len) 2,
                 size := s.size - 1 } key len =
        (hash key len % s.capacity + d) % s.capacity := by
      exact find_slot_of_first_stop hash eq
        (s := { s with state := s.state.set (set_find_slot hash eq s key len) 2,
                       size := s.size - 1 })
        (m := m) hc hd hstop2 hcont2
    rw [set_contains_eq hash eq (by
      show set_find_slot hash eq _ key len <
        (s.state.set (set_find_slot hash eq s key len) 2).length
      rw [hres2, List.length_set, hslen]
      exact Nat.mod_lt _ hpos)]
    rw [hres2]
    have hval : (s.state.set (set_find_slot hash eq s key len) 2).getD
        ((hash key len % s.capacity + d) % s.capacity) 0 = 2 := by
      rw [← hres]
      exact getD_set_self _ _ _ _ hlen
    show some ((s.state.set (set_find_slot hash eq s key len) 2).getD
      ((hash key len % s.capacity + d) % s.capacity) 0 == 1) = some false
    rw [hval]
    rfl
  · refine ⟨false, s, by
      rw [set_remove_eq hash eq hlen,
        if_neg (fun hb => hst (by simpa using hb))], ?_⟩
    rw [set_contains_eq hash eq hlen]
    have hb : (s.state.getD (set_find_slot hash eq s key len) 0 == 1) = false := by
      cases hb : (s.state.getD (set_find_slot hash eq s key len) 0 == 1)
      · rfl
      · exact absurd (by simpa using hb) hst
    rw [hb]


theorem count_one_set_le (l : List Nat) (i : Nat) :
    (l.set i 1).count 1 ≤ l.count 1 + 1 := by
  induction l generalizing i with
  | nil => simp
  | cons a t ih =>
    cases i with
    | zero => simp [List.count_cons]
    | succ i =>
      rw [List.set_cons_succ, List.count_cons, List.count_cons]
      have := ih i
      omega

theorem count_one_set_of_free (l : List Nat) {i : Nat} (h : i < l.length)
    (hne : l.getD i 0 ≠ 1) : (l.set i 1).count 1 = l.count 1 + 1 := by
  induction l generalizing i with
  | nil => simp at h
  | cons a t ih =>
    cases i with
    | zero =>
      rw [List.getD_cons_zero] at hne
      simp [List.count_cons, hne]
    | succ i =>
      rw [List.getD_cons_succ] at hne
      rw [List.set_cons_succ, List.count_cons, List.count_cons,
        ih (by simpa using h) hne]
      omega

theorem count_one_set_two (l : List Nat) {i : Nat} (h : i < l.length)
    (he : l.getD i 0 = 1) : l.count 1 = (l.set i 2).count 1 + 1 := by
  induction l generalizing i with
  | nil => simp at h
  | cons a t ih =>
    cases i with
    | zero =>
      rw [List.getD_cons_zero] at he
      simp [List.count_cons, he]
    | succ i =>
      rw [List.getD_cons_succ] at he
      rw [List.set_cons_succ, List.count_cons, List.count_cons,
        ih (by simpa using h) he, Nat.add_right_comm]

theorem getD_replicate_zero (n i : Nat) :
    (List.replicate n (0 : Nat)).getD i 0 = 0 := by
  induction n generalizing i with
  | zero => simp
  | succ n ih =>
    cases i with
    | zero => simp [List.replicate_succ]
    | succ i => simpa [List.replicate_succ] using ih i

theorem countP_range_count_one : ∀ l : List Nat,
    (List.range l.length).countP (fun i => l.getD i 0 == 1) = l.count 1 := by
  intro l
  induction l with
  | nil => rfl
  | cons a t ih =>
    rw [List.length_cons, List.range_succ_eq_map, List.countP_cons,
      List.countP_map, List.count_cons]
    have hcomp : ((fun i => (a :: t).getD i 0 == 1) ∘ (· + 1)) =
        fun i => t.getD i 0 == 1 := by
      funext i
      simp [Function.comp, List.getD_cons_succ]
    rw [hcomp, ih, List.getD_cons_zero]

variable {K : Type} [Inhabited K]
variable (hash : K → Nat → Nat) (eq : K → Nat → K → Nat → Bool)

theorem occ_writeSlot_le (s : HSet K) (e : K × Nat) (r : Nat) :
    occ (writeSlot s e r) ≤ occ s + 1 :=
  count_one_set_le s.state r

theorem occ_writeSlot_of_free {s : HSet K} (e : K × Nat) {r : Nat}
    (h : r < s.state.length) (hne : s.state.getD r 0 ≠ 1) :
    occ (writeSlot s e r) = occ s + 1 :=
  count_one_set_of_free s.state h hne

/-- Invariants maintained by the re-insertion loop of `resize`: the
accumulator table keeps its shape, all its slot states stay in `{0, 1}`,
`size` counts exactly the occupied old slots processed, the occupied
count stays within the budget (so the loop never runs out of free
slots, i.e. never hits the out-of-bounds write), and every occupied slot
holds either an entry the accumulator already held or one of the
processed old entries. -/
theorem resize_fold_basic (olddata : List (K × Nat)) (oldstate : List Nat)
    {m' : Nat} :
    ∀ (l : List Nat) (t : HSet K),
      t.capacity = 2 ^ m' →
      t.data.length = t.capacity → t.state.length = t.capacity →
      (∀ x ∈ t.state, x = 0 ∨ x = 1) →
      occ t ≤ t.size →
      occ t + l.countP (fun i => oldstate.getD i 0 == 1) < t.capacity →
      ∃ t', l.foldl (resizeStep hash eq olddata oldstate) (some t) = some t' ∧
        t'.capacity = t.capacity ∧
        t'.data.length = t.capacity ∧ t'.state.length = t.capacity ∧
        (∀ x ∈ t'.state, x = 0 ∨ x = 1) ∧
        occ t' ≤ t'.size ∧
        occ t' ≤ occ t + l.countP (fun i => oldstate.getD i 0 == 1) ∧
        t'.size = t.size + l.countP (fun i => oldstate.getD i 0 == 1) ∧
        (∀ j, t'.state.getD j 0 = 1 →
          (t.state.getD j 0 = 1 ∧ t'.data.getD j default = t.data.getD j default) ∨
          ∃ i, i ∈ l ∧ oldstate.getD i 0 = 1 ∧
            t'.data.getD j default = olddata.getD i default) := by
  intro l
  induction l with
  | nil =>
    intro t hc hd hs h01 hos _
    exact ⟨t, rfl, rfl, hd, hs, h01, hos, by simp, by simp, fun j hj => Or.inl ⟨hj, rfl⟩⟩
  | cons i l' ih =>
    intro t hc hd hs h01 hos hbud
    rw [List.foldl_cons]
    by_cases hocc_i : oldstate.getD i 0 = 1
    · have hcmp : (oldstate.getD i 0 == 1) = true := by simpa using hocc_i
      have hcnt : (i :: l').countP (fun i => oldstate.getD i 0 == 1) =
          l'.countP (fun i => oldstate.getD i 0 == 1) + 1 :=
        List.countP_cons_of_pos _ _ hcmp
      have hoccT : occ t < t.capacity := by omega
      have hslot := find_slot_lt hash eq
        (k := (olddata.getD i default).1)
        (l := (olddata.getD i default).2) hc hs hoccT
      have hstep : resizeStep hash eq olddata oldstate (some t) i =
          some (writeSlot t (olddata.getD i default)
            (set_find_slot hash eq t (olddata.getD i default).1
              (olddata.getD i default).2)) := by
        show (if (oldstate.getD i 0 == 1) = true then
            if set_find_slot hash eq t (olddata.getD i default).1
                (olddata.getD i default).2 < 0 then some t
            else if set_find_slot hash eq t (olddata.getD i default).1
                (olddata.getD i default).2 < t.capacity then
              some (writeSlot t (olddata.getD i default)
                (set_find_slot hash eq t (olddata.getD i default).1
                  (olddata.getD i default).2))
            else none
          else some t) = _
        rw [if_pos hcmp, if_neg (Nat.not_lt_zero _), if_pos hslot]
      rw [hstep]
      have hslot_len : set_find_slot hash eq t (olddata.getD i default).1
          (olddata.getD i default).2 < t.state.length := by
        rw [hs]; exact hslot
      have hslot_dlen : set_find_slot hash eq t (olddata.getD i default).1
          (olddata.getD i default).2 < t.data.length := by
        rw [hd]; exact hslot
      have hocc2 : occ (writeSlot t (olddata.getD i default)
          (set_find_slot hash eq t (olddata.getD i default).1
            (olddata.getD i default).2)) ≤ occ t + 1 :=
        occ_writeSlot_le _ _ _
      obtain ⟨t', h1, h2, h3, h4, h5, h6, h7, h8, h9⟩ := ih
        (writeSlot t (olddata.getD i default)
          (set_find_slot hash eq t (olddata.getD i default).1
            (olddata.getD i default).2))
        (by rw [writeSlot_capacity]; exact hc)
        (by rw [writeSlot_data_length, writeSlot_capacity]; exact hd)
        (by rw [writeSlot_state_length, writeSlot_capacity]; exact hs)
        (by
          intro x hx
          rcases List.mem_or_eq_of_mem_set hx with hx' | hx'
          · exact h01 x hx'
          · exact Or.inr hx')
        (by rw [writeSlot_size]; omega)
        (by rw [writeSlot_capacity]; omega)
      have hc2 := writeSlot_capacity t (olddata.getD i default)
        (set_find_slot hash eq t (olddata.getD i default).1
          (olddata.getD i default).2)
      have hs2 := writeSlot_size t (olddata.getD i default)
        (set_find_slot hash eq t (olddata.getD i default).1
          (olddata.getD i default).2)
      refine ⟨t', h1, h2.trans hc2, h3.trans hc2, h4.trans hc2, h5, h6,
        by omega, by omega, ?_⟩
      intro j hj
      rcases h9 j hj with ⟨hocc2j, hdata2j⟩ | ⟨i', hi', hocc', hdat'⟩
      · by_cases hjr : set_find_slot hash eq t (olddata.getD i default).1
            (olddata.getD i default).2 = j
        · refine Or.inr ⟨i, List.mem_cons_self _ _, hocc_i, ?_⟩
          rw [hdata2j, ← hjr, writeSlot_data_self hslot_dlen]
        · left
          rw [writeSlot_state_ne _ hjr] at hocc2j
          rw [writeSlot_data_ne _ hjr] at hdata2j
          exact ⟨hocc2j, hdata2j⟩
      · exact Or.inr ⟨i', List.mem_cons_of_mem _ hi', hocc', hdat'⟩
    · have hcmp : (oldstate.getD i 0 == 1) = false := by
        simpa using hocc_i
      have hcnt : (i :: l').countP (fun i => oldstate.getD i 0 == 1) =
          l'.countP (fun i => oldstate.getD i 0 == 1) := by
        rw [List.countP_cons_of_neg]
        rw [hcmp]
        exact Bool.false_ne_true
      have hstep : resizeStep hash eq olddata oldstate (some t) i = some t := by
        show (if (oldstate.getD i 0 == 1) = true then
            if set_find_slot hash eq t (olddata.getD i default).1
                (olddata.getD i default).2 < 0 then some t
            else if set_find_slot hash eq t (olddata.getD i default).1
                (olddata.getD i default).2 < t.capacity then
              some (writeSlot t (olddata.getD i default)
                (set_find_slot hash eq t (olddata.getD i default).1
                  (olddata.getD i default).2))
            else none
          else some t) = some t
        rw [if_neg (by rw [hcmp]; exact Bool.false_ne_true)]
      rw [hstep]
      obtain ⟨t', h1, h2, h3, h4, h5, h6, h7, h8, h9⟩ := ih t hc hd hs h01 hos
        (by omega)
      refine ⟨t', h1, h2, h3, h4, h5, h6, by omega, by omega, ?_⟩
      intro j hj
      rcases h9 j hj with hL | ⟨i', hi', hocc', hdat'⟩
      · exact Or.inl hL
      · exact Or.inr ⟨i', List.mem_cons_of_mem _ hi', hocc', hdat'⟩


theorem count_one_replicate_zero (n : Nat) :
    (List.replicate n (0 : Nat)).count 1 = 0 := by
  induction n with
  | zero => rfl
  | succ n ih => simp [List.replicate_succ, List.count_cons, ih]

variable {K : Type} [Inhabited K]
variable (hash : K → Nat → Nat) (eq : K → Nat → K → Nat → Bool)

/-- Structural description of a successful `resize`: the new table has
the requested shape, only `Empty`/`Occupied` states (all tombstones are
gone), `size` recomputed as the old occupied count, and every occupied
slot holds one of the old occupied entries. -/
theorem set_resize_spec {s : HSet K} {c n : Nat}
    (hnc : c = 2 ^ n)
    (hslen : s.state.length = s.capacity)
    (hocc : occ s < c) :
    ∃ s', set_resize hash eq s c = some s' ∧
      s'.capacity = c ∧ s'.data.length = c ∧
      s'.state.length = c ∧
      (∀ x ∈ s'.state, x = 0 ∨ x = 1) ∧
      occ s' ≤ s'.size ∧ occ s' ≤ occ s ∧ s'.size = occ s ∧
      (∀ j, s'.state.getD j 0 = 1 →
        ∃ i, i < s.capacity ∧ s.state.getD i 0 = 1 ∧
          s'.data.getD j default = s.data.getD i default) := by
  have hcount : (List.range s.capacity).countP
      (fun i => s.state.getD i 0 == 1) = occ s := by
    unfold occ
    rw [← hslen]
    exact countP_range_count_one s.state
  have hocc0 : occ ({ data := List.replicate c (default, 0),
                      state := List.replicate c 0, size := 0,
                      capacity := c } : HSet K) = 0 :=
    count_one_replicate_zero c
  obtain ⟨t', h1, h2, h3, h4, h5, h6, h7, h8, h9⟩ :=
    resize_fold_basic hash eq s.data s.state (List.range s.capacity)
      ({ data := List.replicate c (default, 0),
         state := List.replicate c 0, size := 0, capacity := c })
      hnc (by simp) (by simp)
      (fun x hx => Or.inl (List.eq_of_mem_replicate hx))
      (by rw [hocc0])
      (by rw [hocc0, hcount]; simpa using hocc)
  have hsz0 : ({ data := List.replicate c (default, 0),
                 state := List.replicate c 0, size := 0,
                 capacity := c } : HSet K).size = 0 := rfl
  rw [hcount] at h7 h8
  rw [hocc0] at h7
  rw [hsz0] at h8
  refine ⟨t', h1, h2, h3, h4, h5, h6, by omega, by omega, ?_⟩
  intro j hj
  rcases h9 j hj with ⟨habs, _⟩ | ⟨i, hi, hocc', hdat'⟩
  · rw [getD_replicate_zero] at habs
    omega
  · exact ⟨i, List.mem_range.1 hi, hocc', hdat'⟩

/-- Membership version of the re-insertion loop invariant: every entry
already reported present stays present, and every processed occupied
old entry ends up reported present. -/
theorem resize_fold_mem (olddata : List (K × Nat)) (oldstate : List Nat)
    {m' : Nat}
    (eqSym : ∀ a la b lb, eq a la b lb = eq b lb a la)
    (eqTrans : ∀ a la b lb c lc,
      eq a la b lb = true → eq b lb c lc = true → eq a la c lc = true) :
    ∀ (l : List Nat) (t : HSet K),
      t.capacity = 2 ^ m' →
      t.data.length = t.capacity → t.state.length = t.capacity →
      occ t + l.countP (fun i => oldstate.getD i 0 == 1) < t.capacity →
      ∃ t', l.foldl (resizeStep hash eq olddata oldstate) (some t) = some t' ∧
        (∀ e : K × Nat, set_contains hash eq t e.1 e.2 = some true →
          set_contains hash eq t' e.1 e.2 = some true) ∧
        (∀ i, i ∈ l → oldstate.getD i 0 = 1 →
          eq (olddata.getD i default).1 (olddata.getD i default).2
            (olddata.getD i default).1 (olddata.getD i default).2 = true →
          set_contains hash eq t' (olddata.getD i default).1
            (olddata.getD i default).2 = some true) := by
  intro l
  induction l with
  | nil =>
    intro t _ _ _ _
    exact ⟨t, rfl, fun _ h => h, fun i hi => absurd hi (List.not_mem_nil i)⟩
  | cons i l' ih =>
    intro t hc hd hs hbud
    rw [List.foldl_cons]
    by_cases hocc_i : oldstate.getD i 0 = 1
    · have hcmp : (oldstate.getD i 0 == 1) = true := by simpa using hocc_i
      have hcnt : (i :: l').countP (fun i => oldstate.getD i 0 == 1) =
          l'.countP (fun i => oldstate.getD i 0 == 1) + 1 :=
        List.countP_cons_of_pos _ _ hcmp
      have hoccT : occ t < t.capacity := by omega
      have hslot := find_slot_lt hash eq
        (k := (olddata.getD i default).1)
        (l := (olddata.getD i default).2) hc hs hoccT
      have hstep : resizeStep hash eq olddata oldstate (some t) i =
          some (writeSlot t (olddata.getD i default)
            (set_find_slot hash eq t (olddata.getD i default).1
              (olddata.getD i default).2)) := by
        show (if (oldstate.getD i 0 == 1) = true then
            if set_find_slot hash eq t (olddata.getD i default).1
                (olddata.getD i default).2 < 0 then some t
            else if set_find_slot hash eq t (olddata.getD i default).1
                (olddata.getD i default).2 < t.capacity then
              some (writeSlot t (olddata.getD i default)
                (set_find_slot hash eq t (olddata.getD i default).1
                  (olddata.getD i default).2))
            else none
          else some t) = _
        rw [if_pos hcmp, if_neg (Nat.not_lt_zero _), if_pos hslot]
      rw [hstep]
      have hocc2 : occ (writeSlot t (olddata.getD i default)
          (set_find_slot hash eq t (olddata.getD i default).1
            (olddata.getD i default).2)) ≤ occ t + 1 :=
        occ_writeSlot_le _ _ _
      obtain ⟨t', h1, hpres, hnew⟩ := ih
        (writeSlot t (olddata.getD i default)
          (set_find_slot hash eq t (olddata.getD i default).1
            (olddata.getD i default).2))
        (by rw [writeSlot_capacity]; exact hc)
        (by rw [writeSlot_data_length, writeSlot_capacity]; exact hd)
        (by rw [writeSlot_state_length, writeSlot_capacity]; exact hs)
        (by rw [writeSlot_capacity]; omega)
      refine ⟨t', h1, ?_, ?_⟩
      · intro e hmem
        exact hpres e (contains_writeSlot_preserve hash eq hc hd hs
          eqSym eqTrans hslot hmem)
      · intro i' hi' hocc' hrefl'
        rcases List.mem_cons.1 hi' with hi'' | hi''
        · subst hi''
          apply hpres
          exact contains_writeSlot_self hash eq hc hd hs hrefl' hslot
        · exact hnew i' hi'' hocc' hrefl'
    · have hcmp : (oldstate.getD i 0 == 1) = false := by simpa using hocc_i
      have hcnt : (i :: l').countP (fun i => oldstate.getD i 0 == 1) =
          l'.countP (fun i => oldstate.getD i 0 == 1) := by
        rw [List.countP_cons_of_neg]
        rw [hcmp]
        exact Bool.false_ne_true
      have hstep : resizeStep hash eq olddata oldstate (some t) i = some t := by
        show (if (oldstate.getD i 0 == 1) = true then
            if set_find_slot hash eq t (olddata.getD i default).1
                (olddata.getD i default).2 < 0 then some t
            else if set_find_slot hash eq t (olddata.getD i default).1
                (olddata.getD i default).2 < t.capacity then
              some (writeSlot t (olddata.getD i default)
                (set_find_slot hash eq t (olddata.getD i default).1
                  (olddata.getD i default).2))
            else none
          else some t) = some t
        rw [if_neg (by rw [hcmp]; exact Bool.false_ne_true)]
      rw [hstep]
      obtain ⟨t', h1, hpres, hnew⟩ := ih t hc hd hs (by omega)
      refine ⟨t', h1, hpres, ?_⟩
      intro i' hi' hocc' hrefl'
      rcases List.mem_cons.1 hi' with hi'' | hi''
      · subst hi''
        exact absurd hocc' hocc_i
      · exact hnew i' hi'' hocc' hrefl'

/-- After a successful `resize`, every entry occupying a slot of the
old table is reported present in the new one. -/
theorem set_resize_mem {s : HSet K} {c n : Nat}
    (eqSym : ∀ a la b lb, eq a la b lb = eq b lb a la)
    (eqTrans : ∀ a la b lb c lc,
      eq a la b lb = true → eq b lb c lc = true → eq a la c lc = true)
    (hnc : c = 2 ^ n)
    (hslen : s.state.length = s.capacity)
    (hocc : occ s < c) :
    ∃ s', set_resize hash eq s c = some s' ∧
      (∀ i, i < s.capacity → s.state.getD i 0 = 1 →
        eq (s.data.getD i default).1 (s.data.getD i default).2
          (s.data.getD i default).1 (s.data.getD i default).2 = true →
        set_contains hash eq s' (s.data.getD i default).1
          (s.data.getD i default).2 = some true) := by
  have hcount : (List.range s.capacity).countP
      (fun i => s.state.getD i 0 == 1) = occ s := by
    unfold occ
    rw [← hslen]
    exact countP_range_count_one s.state
  have hocc0 : occ ({ data := List.replicate c (default, 0),
                      state := List.replicate c 0, size := 0,
                      capacity := c } : HSet K) = 0 :=
    count_one_replicate_zero c
  obtain ⟨t', h1, _, hnew⟩ :=
    resize_fold_mem hash eq s.data s.state eqSym eqTrans
      (List.range s.capacity)
      ({ data := List.replicate c (default, 0),
         state := List.replicate c 0, size := 0, capacity := c })
      hnc (by simp) (by simp)
      (by rw [hocc0, hcount]; simpa using hocc)
  exact ⟨t', h1, fun i hi => hnew i (List.mem_range.2 hi)⟩


variable {K : Type} [Inhabited K]
variable (hash : K → Nat → Nat) (eq : K → Nat → K → Nat → Bool)

/-- The two possible outcomes of the write phase of `insert`. -/
theorem insertAt_cases {s : HSet K} {k : K} {len : Nat} {b : Bool}
    {s' : HSet K} {m : Nat}
    (hc : s.capacity = 2 ^ m) (hslen : s.state.length = s.capacity)
    (hocc : occ s < s.capacity)
    (h : insertAt hash eq s k len = some (b, s')) :
    (b = false ∧ s' = s ∧
      s.state.getD (set_find_slot hash eq s k len) 0 = 1) ∨
    (b = true ∧ s' = writeSlot s (k, len) (set_find_slot hash eq s k len) ∧
      s.state.getD (set_find_slot hash eq s k len) 0 ≠ 1) := by
  have hlt := find_slot_lt hash eq (k := k) (l := len) hc hslen hocc
  have hlen : set_find_slot hash eq s k len < s.state.length := by
    rw [hslen]; exact hlt
  by_cases hst : s.state.getD (set_find_slot hash eq s k len) 0 = 1
  · rw [insertAt_occupied hash eq hlen hst] at h
    injection h with h'
    injection h' with hb hs'
    exact Or.inl ⟨hb.symm, hs'.symm, hst⟩
  · rw [insertAt_free hash eq hlen hst] at h
    injection h with h'
    injection h' with hb hs'
    exact Or.inr ⟨hb.symm, hs'.symm, hst⟩

/-- The write phase of `insert` succeeds (no undefined behavior) and the
key is reported present right afterwards. -/
theorem insertAt_then_contains {s : HSet K} {k : K} {len : Nat} {m : Nat}
    (hc : s.capacity = 2 ^ m)
    (hdlen : s.data.length = s.capacity) (hslen : s.state.length = s.capacity)
    (hocc : occ s < s.capacity) (hrefl : eq k len k len = true) :
    ∃ b s', insertAt hash eq s k len = some (b, s') ∧
      set_contains hash eq s' k len = some true := by
  have hlt := find_slot_lt hash eq (k := k) (l := len) hc hslen hocc
  have hlen : set_find_slot hash eq s k len < s.state.length := by
    rw [hslen]; exact hlt
  by_cases hst : s.state.getD (set_find_slot hash eq s k len) 0 = 1
  · refine ⟨false, s, insertAt_occupied hash eq hlen hst, ?_⟩
    rw [set_contains_eq hash eq hlen, hst]
    rfl
  · exact ⟨true, _, insertAt_free hash eq hlen hst,
      contains_writeSlot_self hash eq hc hdlen hslen hrefl hlt⟩

theorem set_insert_eq_of_trigger {s : HSet K} {k : K} {len : Nat}
    (h : 10 * s.size > 7 * s.capacity) :
    set_insert hash eq s k len =
      match set_resize hash eq s (s.capacity * 2) with
      | none => none
      | some s₀ => insertAt hash eq s₀ k len := by
  unfold set_insert
  rw [if_pos h]

theorem set_insert_eq_of_no_trigger {s : HSet K} {k : K} {len : Nat}
    (h : ¬ 10 * s.size > 7 * s.capacity) :
    set_insert hash eq s k len = insertAt hash eq s k len := by
  unfold set_insert
  rw [if_neg h]

/-- On any well-shaped, not-full table, `insert` runs without undefined
behavior and the inserted key is reported present immediately
afterwards — whether the insert succeeded, was rejected as a duplicate,
or triggered a growth first. -/
theorem insert_then_contains_true {s : HSet K} {k : K} {len : Nat} {m : Nat}
    (hc : s.capacity = 2 ^ m)
    (hdlen : s.data.length = s.capacity) (hslen : s.state.length = s.capacity)
    (hocc : occ s < s.capacity) (hrefl : eq k len k len = true) :
    ∃ b s', set_insert hash eq s k len = some (b, s') ∧
      set_contains hash eq s' k len = some true := by
  have hoccle : occ s ≤ s.capacity := by
    rw [← hslen]; exact List.count_le_length 1 s.state
  have hpos : 0 < s.capacity := by
    rw [hc]; exact Nat.pos_pow_of_pos m (by decide)
  by_cases htrig : 10 * s.size > 7 * s.capacity
  · rw [set_insert_eq_of_trigger hash eq htrig]
    obtain ⟨s₀, hres, hcap₀, hd₀, hs₀, _, _, hoccle₀, _, _⟩ :=
      set_resize_spec hash eq (s := s) (c := s.capacity * 2) (n := m + 1)
        (by rw [hc, pow_succ]) hslen (by omega)
    rw [hres]
    exact insertAt_then_contains hash eq (m := m + 1)
      (by rw [hcap₀, hc, pow_succ])
      (hd₀.trans hcap₀.symm) (hs₀.trans hcap₀.symm)
      (by rw [hcap₀]; omega) hrefl
  · rw [set_insert_eq_of_no_trigger hash eq htrig]
    exact insertAt_then_contains hash eq hc hdlen hslen hocc hrefl

/-- A successful `init` yields a well-formed table. -/
theorem wf_init : Wf (initSet (K := K)) := by
  refine ⟨rfl, rfl, ⟨4, rfl⟩, Nat.le_refl _, ?_, Nat.le_refl _⟩
  show occ (initSet (K := K)) < 16
  have : occ (initSet (K := K)) = 0 := count_one_replicate_zero 16
  omega

/-- `insert` preserves well-formedness (including the crucial
"not all slots occupied" bound, thanks to the load-factor policy). -/
theorem wf_insert {s : HSet K} {k : K} {len : Nat} {b : Bool} {s' : HSet K}
    (hwf : Wf s) (h : set_insert hash eq s k len = some (b, s')) : Wf s' := by
  obtain ⟨m, hc⟩ := hwf.cap_pow
  have hoccle : occ s ≤ s.capacity := by
    rw [← hwf.state_len]; exact List.count_le_length 1 s.state
  have hge := hwf.cap_ge
  by_cases htrig : 10 * s.size > 7 * s.capacity
  · rw [set_insert_eq_of_trigger hash eq htrig] at h
    obtain ⟨s₀, hres, hcap₀, hd₀, hs₀, _, hoccsz₀, hoccle₀, _, _⟩ :=
      set_resize_spec hash eq (s := s) (c := s.capacity * 2) (n := m + 1)
        (by rw [hc, pow_succ]) hwf.state_len (by omega)
    rw [hres] at h
    have hc₀ : s₀.capacity = 2 ^ (m + 1) := by rw [hcap₀, hc, pow_succ]
    have hocc₀ : occ s₀ < s₀.capacity := by rw [hcap₀]; omega
    have hslen₀ : s₀.state.length = s₀.capacity := hs₀.trans hcap₀.symm
    have hdlen₀ : s₀.data.length = s₀.capacity := hd₀.trans hcap₀.symm
    rcases insertAt_cases hash eq hc₀ hslen₀ hocc₀ h with
      ⟨_, hseq, _⟩ | ⟨_, hseq, hfree⟩
    · subst hseq
      exact ⟨hdlen₀, hslen₀, ⟨m + 1, hc₀⟩, by omega, hocc₀, hoccsz₀⟩
    · subst hseq
      have hltw : set_find_slot hash eq s₀ k len < s₀.state.length := by
        rw [hslen₀]; exact find_slot_lt hash eq hc₀ hslen₀ hocc₀
      refine ⟨?_, ?_, ⟨m + 1, by rw [writeSlot_capacity]; exact hc₀⟩, ?_, ?_, ?_⟩
      · rw [writeSlot_data_length, writeSlot_capacity]; exact hdlen₀
      · rw [writeSlot_state_length, writeSlot_capacity]; exact hslen₀
      · rw [writeSlot_capacity, hcap₀]; omega
      · rw [writeSlot_capacity, occ_writeSlot_of_free _ hltw hfree, hcap₀]
        omega
      · rw [occ_writeSlot_of_free _ hltw hfree, writeSlot_size]
        omega
  · rw [set_insert_eq_of_no_trigger hash eq htrig] at h
    have hoccsz := hwf.occ_le_size
    have harith : occ s + 1 < s.capacity := by omega
    rcases insertAt_cases hash eq hc hwf.state_len hwf.occ_lt h with
      ⟨_, hseq, _⟩ | ⟨_, hseq, hfree⟩
    · subst hseq
      exact hwf
    · subst hseq
      have hltw : set_find_slot hash eq s k len < s.state.length := by
        rw [hwf.state_len]; exact find_slot_lt hash eq hc hwf.state_len hwf.occ_lt
      refine ⟨?_, ?_, ⟨m, by rw [writeSlot_capacity]; exact hc⟩, ?_, ?_, ?_⟩
      · rw [writeSlot_data_length, writeSlot_capacity]; exact hwf.data_len
      · rw [writeSlot_state_length, writeSlot_capacity]; exact hwf.state_len
      · rw [writeSlot_capacity]; omega
      · rw [writeSlot_capacity, occ_writeSlot_of_free _ hltw hfree]
        omega
      · rw [occ_writeSlot_of_free _ hltw hfree, writeSlot_size]
        omega

/-- `remove` preserves well-formedness. -/
theorem wf_remove {s : HSet K} {k : K} {len : Nat} {b : Bool} {s' : HSet K}
    (hwf : Wf s) (h : set_remove hash eq s k len = some (b, s')) : Wf s' := by
  obtain ⟨m, hc⟩ := hwf.cap_pow
  have hlt := find_slot_lt hash eq (k := k) (l := len) hc
    hwf.state_len hwf.occ_lt
  have hlen : set_find_slot hash eq s k len < s.state.length := by
    rw [hwf.state_len]; exact hlt
  rw [set_remove_eq hash eq hlen] at h
  by_cases hst : s.state.getD (set_find_slot hash eq s k len) 0 = 1
  · rw [if_pos (by rw [hst]; rfl)] at h
    injection h with h'
    injection h' with _ hs'
    subst hs'
    have hcnt := count_one_set_two s.state hlen hst
    refine ⟨hwf.data_len, ?_, ⟨m, hc⟩, hwf.cap_ge, ?_, ?_⟩
    · rw [List.length_set]; exact hwf.state_len
    · show (s.state.set (set_find_slot hash eq s k len) 2).count 1 < s.capacity
      have := hwf.occ_lt
      unfold occ at this
      omega
    · show (s.state.set (set_find_slot hash eq s k len) 2).count 1 ≤ s.size - 1
      have := hwf.occ_le_size
      unfold occ at this
      omega
  · rw [if_neg (fun hb => hst (by simpa using hb))] at h
    injection h with h'
    injection h' with _ hs'
    subst hs'
    exact hwf

/-- Every reachable state is well-formed. -/
theorem reach_wf {s : HSet K} (h : Reach hash eq s) : Wf s := by
  induction h with
  | init => exact wf_init
  | insert _ hins ih => exact wf_insert hash eq ih hins
  | remove _ hrem ih => exact wf_remove hash eq ih hrem


variable {K : Type} [Inhabited K]
variable (hash : K → Nat → Nat) (eq : K → Nat → K → Nat → Bool)

/-- Inserting a key that matches no occupied slot, in a not-full table
below the load-factor threshold, succeeds by writing into the free slot
the probe found. -/
theorem insert_fresh {t : HSet K} {k : K} {len : Nat} {m : Nat}
    (hc : t.capacity = 2 ^ m) (hs : t.state.length = t.capacity)
    (hocc : occ t < t.capacity)
    (hnew : ∀ j, j < t.capacity → t.state.getD j 0 = 1 →
      eq (t.data.getD j default).1 (t.data.getD j default).2 k len = false)
    (hnotrig : ¬ 10 * t.size > 7 * t.capacity) :
    set_insert hash eq t k len =
      some (true, writeSlot t (k, len) (set_find_slot hash eq t k len)) ∧
      t.state.getD (set_find_slot hash eq t k len) 0 ≠ 1 := by
  have hlt := find_slot_lt hash eq (k := k) (l := len) hc hs hocc
  have hstop := find_slot_stop hash eq hc hlt
  have hfree : t.state.getD (set_find_slot hash eq t k len) 0 ≠ 1 := by
    intro h1
    rcases (probeCont_eq_false eq).1 hstop with h | h
    · exact h h1
    · rw [hnew _ hlt h1] at h
      cases h
  refine ⟨?_, hfree⟩
  rw [set_insert_eq_of_no_trigger hash eq hnotrig]
  exact insertAt_free hash eq (by rw [hs]; exact hlt) hfree

/-- Running `insert` over a list of pairwise-distinct keys, none of
which is already present, from a table with at most `12 - length` live
entries at the initial capacity 16: every insert succeeds without
triggering a resize, `size` and the occupied count advance in lockstep,
and the occupied slots hold exactly the old entries plus the new ones. -/
theorem insertAll_fresh : ∀ (ks : List (K × Nat)) (t : HSet K),
    t.capacity = 16 →
    t.data.length = 16 → t.state.length = 16 →
    occ t = t.size →
    t.size + ks.length ≤ 12 →
    (∀ e, e ∈ ks → ∀ j, j < 16 → t.state.getD j 0 = 1 →
      eq (t.data.getD j default).1 (t.data.getD j default).2 e.1 e.2 = false) →
    ks.Pairwise (fun a b => eq a.1 a.2 b.1 b.2 = false) →
    ∃ t', insertAll hash eq t ks = some t' ∧ t'.capacity = 16 ∧
      t'.size = t.size + ks.length ∧ occ t' = t'.size ∧
      t'.data.length = 16 ∧ t'.state.length = 16 ∧
      (∀ j, j < 16 → t'.state.getD j 0 = 1 →
        (t.state.getD j 0 = 1 ∧
          t'.data.getD j default = t.data.getD j default) ∨
        t'.data.getD j default ∈ ks) := by
  intro ks
  induction ks with
  | nil =>
    intro t hcap hd hs hoccsz hbud _ _
    exact ⟨t, rfl, hcap, by simp, by simpa using hoccsz, hd, hs,
      fun j _ hj => Or.inl ⟨hj, rfl⟩⟩
  | cons e es ih =>
    intro t hcap hd hs hoccsz hbud hfreshAll hpw
    obtain ⟨hhead, htail⟩ := List.pairwise_cons.1 hpw
    have hc : t.capacity = 2 ^ 4 := by rw [hcap]; norm_num
    have hlencons : (e :: es).length = es.length + 1 := rfl
    have hnotrig : ¬ 10 * t.size > 7 * t.capacity := by
      rw [hcap]
      omega
    have hocc_lt : occ t < t.capacity := by rw [hcap]; omega
    have hs' : t.state.length = t.capacity := by rw [hs, hcap]
    have hd' : t.data.length = t.capacity := by rw [hd, hcap]
    obtain ⟨hins, hfree⟩ := insert_fresh hash eq hc hs' hocc_lt
      (fun j hj => hfreshAll e (List.mem_cons_self e es) j (by rw [← hcap]; exact hj))
      hnotrig
    have hlt := find_slot_lt hash eq (k := e.1) (l := e.2) hc hs' hocc_lt
    have hltlen : set_find_slot hash eq t e.1 e.2 < t.state.length := by
      rw [hs']; exact hlt
    have hltdlen : set_find_slot hash eq t e.1 e.2 < t.data.length := by
      rw [hd']; exact hlt
    have hocc2 : occ (writeSlot t (e.1, e.2) (set_find_slot hash eq t e.1 e.2)) =
        occ t + 1 := occ_writeSlot_of_free _ hltlen hfree
    have huf : insertAll hash eq t (e :: es) =
        insertAll hash eq
          (writeSlot t (e.1, e.2) (set_find_slot hash eq t e.1 e.2)) es := by
      show (match set_insert hash eq t e.1 e.2 with
        | none => none
        | some (_, s') => insertAll hash eq s' es) = _
      rw [hins]
    obtain ⟨t', h1, h2, h3, h4, h5, h6, h7⟩ := ih
      (writeSlot t (e.1, e.2) (set_find_slot hash eq t e.1 e.2))
      (by rw [writeSlot_capacity]; exact hcap)
      (by rw [writeSlot_data_length]; exact hd)
      (by rw [writeSlot_state_length]; exact hs)
      (by rw [hocc2, writeSlot_size]; omega)
      (by rw [writeSlot_size]; omega)
      (by
        intro e' he' j hj hj1
        by_cases hjr : set_find_slot hash eq t e.1 e.2 = j
        · rw [← hjr, writeSlot_data_self hltdlen]
          exact hhead e' he'
        · rw [writeSlot_state_ne _ hjr] at hj1
          rw [writeSlot_data_ne _ hjr]
          exact hfreshAll e' (List.mem_cons_of_mem e he') j hj hj1)
      htail
    refine ⟨t', by rw [huf]; exact h1, h2, ?_, h4, h5, h6, ?_⟩
    · rw [h3, writeSlot_size, hlencons]
      omega
    · intro j hj hj1
      rcases h7 j hj hj1 with ⟨h2occ, h2dat⟩ | hmem
      · by_cases hjr : set_find_slot hash eq t e.1 e.2 = j
        · right
          rw [h2dat, ← hjr, writeSlot_data_self hltdlen]
          exact List.mem_cons_self e es
        · rw [writeSlot_state_ne _ hjr] at h2occ
          rw [writeSlot_data_ne _ hjr] at h2dat
          exact Or.inl ⟨h2occ, h2dat⟩
      · exact Or.inr (List.mem_cons_of_mem e hmem)

/-- Appending insert sequences composes. -/
theorem insertAll_append (l1 l2 : List (K × Nat)) :
    ∀ s : HSet K, insertAll hash eq s (l1 ++ l2) =
      match insertAll hash eq s l1 with
      | none => none
      | some s' => insertAll hash eq s' l2 := by
  induction l1 with
  | nil => intro s; rfl
  | cons e es ih =>
    intro s
    show (match set_insert hash eq s e.1 e.2 with
      | none => none
      | some (_, s') => insertAll hash eq s' (es ++ l2)) = _
    cases hins : set_insert hash eq s e.1 e.2 with
    | none =>
      show none = (match (match set_insert hash eq s e.1 e.2 with
        | none => none
        | some (_, s') => insertAll hash eq s' es) with
        | none => none
        | some s' => insertAll hash eq s' l2)
      rw [hins]
    | some p =>
      show insertAll hash eq p.2 (es ++ l2) = _
      rw [ih p.2]
      show _ = (match (match set_insert hash eq s e.1 e.2 with
        | none => none
        | some (_, s') => insertAll hash eq s' es) with
        | none => none
        | some s' => insertAll hash eq s' l2)
      rw [hins]

/-- The four-call trace reaching `bugState` from a fresh set, evaluated
step by step.  All four calls succeed (`true`), including the second
`insert 7`. -/
theorem bugTrace :
    set_insert hash0 eqNat initSet 5 0 = some (true, bugS1) ∧
    set_insert hash0 eqNat bugS1 7 0 = some (true, bugS2) ∧
    set_remove hash0 eqNat bugS2 5 0 = some (true, bugS3) ∧
    set_insert hash0 eqNat bugS3 7 0 = some (true, bugState) := by
  decide


/-- C1.  The claim — after a successful `insert(k, len)` and any further
inserts/removes of keys not equal to `k` (with no resize), a second
`insert(k, len)` returns false and leaves `size` unchanged, keys
inserted twice raising `size` by exactly 1 in total — fails on the code:
with the constant-hash instantiation, after `insert 7` succeeds, the
single intervening operation `remove 5` (with `eqNat 5 _ 7 _ = false`
and `capacity` unchanged at 16, so no resize) makes the second
`insert 7` return `true` and raise `size` from 1 to 2; key 7 was
inserted twice in total yet `size` grew by 2. -/
theorem c1_second_insert_succeeds_after_remove :
    set_insert hash0 eqNat initSet 5 0 = some (true, bugS1) ∧
    set_insert hash0 eqNat bugS1 7 0 = some (true, bugS2) ∧
    bugS2.size = 2 ∧
    set_remove hash0 eqNat bugS2 5 0 = some (true, bugS3) ∧
    eqNat 5 0 7 0 = false ∧
    bugS3.capacity = 16 ∧ bugS3.size = 1 ∧
    set_insert hash0 eqNat bugS3 7 0 = some (true, bugState) ∧
    bugState.capacity = 16 ∧ bugState.size = 2 := by
  decide


/-- C2.  The uniqueness invariant — in every reachable state each live
key is held by exactly one `Occupied` slot — fails on the code: in
`bugState`, reached by the four evaluated API calls shown, the two
distinct slots 0 and 1 are both in state 1 (`Occupied`) and both hold
key 7, which compares equal to itself under the instantiation's
equality function. -/
theorem c2_duplicate_occupied_slots :
    set_insert hash0 eqNat initSet 5 0 = some (true, bugS1) ∧
    set_insert hash0 eqNat bugS1 7 0 = some (true, bugS2) ∧
    set_remove hash0 eqNat bugS2 5 0 = some (true, bugS3) ∧
    set_insert hash0 eqNat bugS3 7 0 = some (true, bugState) ∧
    bugState.state.getD 0 0 = 1 ∧ bugState.state.getD 1 0 = 1 ∧
    bugState.data.getD 0 default = (7, 0) ∧
    bugState.data.getD 1 default = (7, 0) ∧
    eqNat 7 0 7 0 = true := by
  decide


/-- C6.  The claim — `init` returns a negative result whenever either
allocation fails and 0 only when both succeeded — fails on the code:
`prefix##_set_init` never inspects the two `HASHSET_CALLOC` results and
returns 0 unconditionally.  Whichever of the two allocations fails, the
result is still 0 ("success") with the corresponding array pointer NULL. -/
theorem c6_init_reports_success_on_alloc_failure :
    (set_init false true rawSet0).1 = 0 ∧
    ((set_init false true rawSet0).2).data = none ∧
    (set_init true false rawSet0).1 = 0 ∧
    ((set_init true false rawSet0).2).state = none ∧
    (set_init false false rawSet0).1 = 0 ∧
    ((set_init false false rawSet0).2).data = none ∧
    ((set_init false false rawSet0).2).state = none := by
  decide


/-- C9.  `destroy` is idempotent: after one call both array pointers are
NULL and `size`/`capacity` are 0, and a second call on the result
returns the very same state and performs zero `HASHSET_FREE` calls —
the pointers are NULL-checked before freeing and nulled afterwards. -/
theorem c9_destroy_idempotent (K : Type) (s : RawSet K) :
    (set_destroy s).1.data = none ∧ (set_destroy s).1.state = none ∧
    (set_destroy s).1.size = 0 ∧ (set_destroy s).1.capacity = 0 ∧
    set_destroy (set_destroy s).1 = ((set_destroy s).1, 0) :=
  ⟨rfl, rfl, rfl, rfl, rfl⟩


/-- C4.  The claim — when probing wraps around a fully `Occupied` table
the "full" sentinel is handled as an error and never used as an array
index — fails on the code: in the fully occupied table `fullPair`,
reached from a fresh set by the evaluated calls `resize 2; insert 0;
insert 1`, probing for the absent key 2 returns the sentinel
`capacity = 2`, and both `contains(2)` and `remove(2)` then read
`state[2]`, one past the end of the array (`none` = undefined
behavior): the guards `if (idx < 0)` can never fire because `idx` has
the unsigned type `size_t`, and `remove` has no guard at all. -/
theorem c4_full_sentinel_used_as_index :
    set_resize hashId eqNat initSet 2 = some pair0 ∧
    (∃ s1, set_insert hashId eqNat pair0 0 0 = some (true, s1) ∧
      set_insert hashId eqNat s1 1 0 = some (true, fullPair)) ∧
    fullPair.state = [1, 1] ∧
    set_find_slot hashId eqNat fullPair 2 0 = fullPair.capacity ∧
    set_contains hashId eqNat fullPair 2 0 = none ∧
    set_remove hashId eqNat fullPair 2 0 = none := by
  exact ⟨by decide,
    ⟨⟨[(0, 0), (0, 0)], [1, 0], 1, 2⟩, by decide, by decide⟩,
    by decide, by decide, by decide, by decide⟩


/-- C10.  A failed insert is not atomic: in the reachable state `s12`
(12 keys in a fresh capacity-16 set, load factor 12/16 > 0.7),
re-inserting the already-present key 0 returns `false` — yet the
resulting set has capacity 32, not 16: the load-factor resize runs
before the duplicate check, so a `false` return does not imply the set
is unchanged. -/
theorem c10_failed_insert_not_atomic :
    insertAll hashId eqNat initSet keys12 = some s12 ∧
    s12.capacity = 16 ∧ s12.size = 12 ∧
    set_insert hashId eqNat s12 0 0 = some (false, s12grown) ∧
    s12grown.capacity = 32 ∧ s12grown ≠ s12 := by
  decide



variable {K : Type} [Inhabited K]
variable (hash : K → Nat → Nat) (eq : K → Nat → K → Nat → Bool)

/-- On a not-full table, the write phase of `insert` always completes
(no undefined behavior) and leaves the capacity unchanged. -/
theorem insertAt_some {s : HSet K} {k : K} {l : Nat} {m : Nat}
    (hc : s.capacity = 2 ^ m) (hslen : s.state.length = s.capacity)
    (hocc : occ s < s.capacity) :
    ∃ b s', insertAt hash eq s k l = some (b, s') ∧
      s'.capacity = s.capacity := by
  have hlt := find_slot_lt hash eq (k := k) (l := l) hc hslen hocc
  have hlen : set_find_slot hash eq s k l < s.state.length := by
    rw [hslen]; exact hlt
  by_cases hst : s.state.getD (set_find_slot hash eq s k l) 0 = 1
  · exact ⟨false, s, insertAt_occupied hash eq hlen hst, rfl⟩
  · exact ⟨true, _, insertAt_free hash eq hlen hst, writeSlot_capacity _ _ _⟩

theorem eqNat_refl (a la : Nat) : eqNat a la a la = true := by
  unfold eqNat
  simp

theorem eqNat_symm (a la b lb : Nat) : eqNat a la b lb = eqNat b lb a la := by
  unfold eqNat
  by_cases h : a = b
  · rw [h]
  · have h1 : (a == b) = false := by simpa using h
    have h2 : (b == a) = false := by simpa using (Ne.symm h)
    rw [h1, h2]

theorem eqNat_trans (a la b lb c lc : Nat) :
    eqNat a la b lb = true → eqNat b lb c lc = true → eqNat a la c lc = true := by
  unfold eqNat
  intro h1 h2
  simp only [beq_iff_eq] at h1 h2 ⊢
  omega



/-- C5.  Round-trip: in every state reachable from a successful `init`
by `insert`/`remove` calls, for any key whose equality function is
reflexive at that key, an `insert(k, len)` completes (no undefined
behavior) and `contains(k, len)` is `true` immediately afterwards —
whether the insert stored the key or rejected it as already present —
and a `remove(k, len)` completes with `contains(k, len)` `false`
immediately afterwards, hit or miss. -/
theorem c5_roundtrip {K : Type} [Inhabited K] (hash : K → Nat → Nat)
    (eq : K → Nat → K → Nat → Bool) (s : HSet K) (k : K) (len : Nat)
    (hreach : Reach hash eq s) (hrefl : eq k len k len = true) :
    (∃ b s', set_insert hash eq s k len = some (b, s') ∧
      set_contains hash eq s' k len = some true) ∧
    (∃ b s', set_remove hash eq s k len = some (b, s') ∧
      set_contains hash eq s' k len = some false) := by
  have hwf := reach_wf hash eq hreach
  obtain ⟨m, hc⟩ := hwf.cap_pow
  exact ⟨insert_then_contains_true hash eq hc hwf.data_len hwf.state_len
      hwf.occ_lt hrefl,
    remove_then_contains_false hash eq hc hwf.state_len hwf.occ_lt⟩

/-- Witness for C5 at a concrete instantiation and reachable state. -/
theorem c5_roundtrip_witness :
    (∃ b s', set_insert hash0 eqNat initSet 3 0 = some (b, s') ∧
      set_contains hash0 eqNat s' 3 0 = some true) ∧
    (∃ b s', set_remove hash0 eqNat initSet 3 0 = some (b, s') ∧
      set_contains hash0 eqNat s' 3 0 = some false) :=
  c5_roundtrip hash0 eqNat initSet 3 0 Reach.init (by decide)

/-- C7.  Resize preserves membership and compacts tombstones: resizing a
well-shaped table to a larger power-of-two capacity (as the load-factor
trigger does with `capacity * 2`, or a direct call) succeeds, reports
every key occupying a slot of the old table as present, reports as
absent every key matching no occupied old entry (in particular every
previously removed key), and leaves no slot in the `Tombstone` state.
The instantiation's equality function must be an equivalence
(reflexive, symmetric, transitive), as the `eq_fn` contract intends. -/
theorem c7_resize_preserves_membership {K : Type} [Inhabited K]
    (hash : K → Nat → Nat) (eq : K → Nat → K → Nat → Bool)
    (s : HSet K) (m m' newcap : Nat)
    (hdlen : s.data.length = s.capacity) (hslen : s.state.length = s.capacity)
    (hc : s.capacity = 2 ^ m) (hnc : newcap = 2 ^ m')
    (hlt : s.capacity < newcap)
    (heqRefl : ∀ a la, eq a la a la = true)
    (heqSym : ∀ a la b lb, eq a la b lb = eq b lb a la)
    (heqTrans : ∀ a la b lb c lc,
      eq a la b lb = true → eq b lb c lc = true → eq a la c lc = true) :
    ∃ s', set_resize hash eq s newcap = some s' ∧
      (∀ i, i < s.capacity → s.state.getD i 0 = 1 →
        set_contains hash eq s' (s.data.getD i default).1
          (s.data.getD i default).2 = some true) ∧
      (∀ k len, (∀ i, i < s.capacity → s.state.getD i 0 = 1 →
          eq (s.data.getD i default).1 (s.data.getD i default).2 k len = false) →
        set_contains hash eq s' k len = some false) ∧
      (∀ x, x ∈ s'.state → x ≠ 2) := by
  have hocclt : occ s < newcap := by
    have h1 : occ s ≤ s.capacity := by
      rw [← hslen]; exact List.count_le_length 1 s.state
    omega
  obtain ⟨s₁, hres1, hcap, hd1, hs1, h01, _, hoccle, _, hprov⟩ :=
    set_resize_spec hash eq hnc hslen hocclt
  obtain ⟨s₂, hres2, hmem⟩ :=
    set_resize_mem hash eq heqSym heqTrans hnc hslen hocclt
  rw [hres1] at hres2
  injection hres2 with he
  subst he
  refine ⟨s₁, hres1, ?_, ?_, ?_⟩
  · intro i hi h1
    exact hmem i hi h1 (heqRefl _ _)
  · intro k len hno
    apply set_contains_no_match hash eq (m := m') (hcap.trans hnc)
      (hs1.trans hcap.symm) (by rw [hcap]; omega)
    intro j _ hj1
    obtain ⟨i, hi, hiocc, hdat⟩ := hprov j hj1
    rw [hdat]
    exact hno i hi hiocc
  · intro x hx
    rcases h01 x hx with h | h <;> omega

/-- Witness for C7: growing `bugS3` (16 slots, key 7 live in slot 1, a
tombstone in slot 0 left by removing key 5) to capacity 32. -/
theorem c7_resize_witness :
    ∃ s', set_resize hash0 eqNat bugS3 32 = some s' ∧
      (∀ i, i < bugS3.capacity → bugS3.state.getD i 0 = 1 →
        set_contains hash0 eqNat s' (bugS3.data.getD i default).1
          (bugS3.data.getD i default).2 = some true) ∧
      (∀ k len, (∀ i, i < bugS3.capacity → bugS3.state.getD i 0 = 1 →
          eqNat (bugS3.data.getD i default).1 (bugS3.data.getD i default).2
            k len = false) →
        set_contains hash0 eqNat s' k len = some false) ∧
      (∀ x, x ∈ s'.state → x ≠ 2) :=
  c7_resize_preserves_membership hash0 eqNat bugS3 4 5 32
    (by decide) (by decide) (by decide) (by decide) (by decide)
    eqNat_refl eqNat_symm eqNat_trans

/-- C8.  Load-factor growth trigger, for any instantiation: inserting 13
pairwise-distinct keys into a freshly initialized set leaves the
capacity at 16 through the first 12 inserts (each insert's starting
state has `size/capacity ≤ 0.7`, so no resize runs), while the 13th
insert starts from `size = 12` with `12/16 > 0.7` and doubles the
capacity; the final capacity 32 is a power of two and at least 16. -/
theorem c8_load_factor_trigger {K : Type} [Inhabited K]
    (hash : K → Nat → Nat) (eq : K → Nat → K → Nat → Bool)
    (ks : List (K × Nat)) (hlen : ks.length = 13)
    (hpw : ks.Pairwise (fun a b => eq a.1 a.2 b.1 b.2 = false)) :
    (∃ t12, insertAll hash eq initSet (ks.take 12) = some t12 ∧
      t12.capacity = 16 ∧ t12.size = 12 ∧
      10 * t12.size > 7 * t12.capacity) ∧
    (∃ t', insertAll hash eq initSet ks = some t' ∧
      t'.capacity = 32 ∧ t'.capacity = 2 ^ 5 ∧ 16 ≤ t'.capacity) := by
  have htk : (ks.take 12).length = 12 := by
    rw [List.length_take]
    omega
  have hocc0 : occ (initSet (K := K)) = 0 := count_one_replicate_zero 16
  have hsz0 : (initSet (K := K)).size = 0 := rfl
  obtain ⟨t12, h1, h2, h3, h4, h5, h6, _⟩ := insertAll_fresh hash eq
    (ks.take 12) initSet rfl rfl rfl (by rw [hocc0, hsz0])
    (by rw [htk, hsz0])
    (by
      intro e _ j _ hj1
      rw [show (initSet (K := K)).state.getD j 0 = 0 from
        getD_replicate_zero 16 j] at hj1
      cases hj1)
    (hpw.sublist (List.take_sublist 12 ks))
  have hsz12 : t12.size = 12 := by rw [h3, hsz0, htk]
  refine ⟨⟨t12, h1, h2, hsz12, by rw [hsz12, h2]; omega⟩, ?_⟩
  obtain ⟨e13, hd13⟩ : ∃ e13, ks.drop 12 = [e13] := by
    have hlend : (ks.drop 12).length = 1 := by
      rw [List.length_drop]
      omega
    cases hdk : ks.drop 12 with
    | nil => rw [hdk] at hlend; cases hlend
    | cons e tl =>
      rw [hdk] at hlend
      cases htl : tl with
      | nil => exact ⟨e, rfl⟩
      | cons x xs =>
        rw [htl] at hlend
        simp at hlend
  have heq : insertAll hash eq initSet ks =
      insertAll hash eq t12 (ks.drop 12) := by
    conv_lhs => rw [← List.take_append_drop 12 ks]
    rw [insertAll_append hash eq (ks.take 12) (ks.drop 12) initSet, h1]
  have htrig : 10 * t12.size > 7 * t12.capacity := by
    rw [hsz12, h2]
    omega
  obtain ⟨s₀, hres, hcap₀, hd₀, hs₀, _, _, hoccle₀, _, _⟩ :=
    set_resize_spec hash eq (s := t12) (c := t12.capacity * 2)
      (n := 5) (by rw [h2]; norm_num) (by rw [h6, h2])
      (by rw [h2, h4, hsz12]; omega)
  have hc₀ : s₀.capacity = 2 ^ 5 := by
    rw [hcap₀, h2]
    norm_num
  have hocc₀ : occ s₀ < s₀.capacity := by
    rw [hcap₀, h2]
    have : occ t12 = 12 := by rw [h4, hsz12]
    omega
  obtain ⟨b, s', hinsAt, hcap'⟩ := insertAt_some hash eq
    (k := e13.1) (l := e13.2) hc₀ (hs₀.trans hcap₀.symm) hocc₀
  have hins : set_insert hash eq t12 e13.1 e13.2 = some (b, s') := by
    rw [set_insert_eq_of_trigger hash eq htrig, hres]
    exact hinsAt
  have hfin : insertAll hash eq t12 (ks.drop 12) = some s' := by
    rw [hd13]
    show (match set_insert hash eq t12 e13.1 e13.2 with
      | none => none
      | some (_, s') => insertAll hash eq s' []) = some s'
    rw [hins]
    rfl
  have hcap32 : s'.capacity = 32 := by
    rw [hcap', hcap₀, h2]
  exact ⟨s', heq.trans hfin, hcap32, by rw [hcap32]; norm_num,
    by rw [hcap32]; omega⟩

/-- Witness for C8 with 13 concrete distinct keys under the identity
hash. -/
theorem c8_load_factor_witness :
    (∃ t12, insertAll hashId eqNat initSet
        (((List.range 13).map (fun i => (i, 0))).take 12) = some t12 ∧
      t12.capacity = 16 ∧ t12.size = 12 ∧
      10 * t12.size > 7 * t12.capacity) ∧
    (∃ t', insertAll hashId eqNat initSet
        ((List.range 13).map (fun i => (i, 0))) = some t' ∧
      t'.capacity = 32 ∧ t'.capacity = 2 ^ 5 ∧ 16 ≤ t'.capacity) :=
  c8_load_factor_trigger hashId eqNat ((List.range 13).map (fun i => (i, 0)))
    (by decide) (by decide)

/-- C3.  Size accounting fails on the code: in the reachable state
`bugState` (the four evaluated calls `insert 5; insert 7; remove 5;
insert 7` under a constant hash), the stored `size` is 2, yet
`contains` is true exactly for key 7 — for every key and length tag,
`contains(k, len)` returns `7 == k` — so the number of keys reported
present is 1, not 2. -/
theorem c3_size_accounting_fails :
    set_insert hash0 eqNat initSet 5 0 = some (true, bugS1) ∧
    set_insert hash0 eqNat bugS1 7 0 = some (true, bugS2) ∧
    set_remove hash0 eqNat bugS2 5 0 = some (true, bugS3) ∧
    set_insert hash0 eqNat bugS3 7 0 = some (true, bugState) ∧
    bugState.size = 2 ∧
    (∀ k len, set_contains hash0 eqNat bugState k len = some (7 == k)) := by
  refine ⟨bugTrace.1, bugTrace.2.1, bugTrace.2.2.1, bugTrace.2.2.2, rfl, ?_⟩
  intro k len
  by_cases hk : k = 7
  · subst hk
    have h7 : set_contains hash0 eqNat bugState 7 len = some true := by
      unfold set_contains set_find_slot probeLoop probeCont bugState hash0 eqNat
      rfl
    rw [h7]
    rfl
  · have hb : ((7 : Nat) == k) = false := by
      simpa using (Ne.symm hk)
    have hfalse : set_contains hash0 eqNat bugState k len = some false := by
      apply set_contains_no_match hash0 eqNat (m := 4) (by decide) (by decide)
        (by decide)
      intro i hi h1
      have hi' : i < 16 := hi
      interval_cases i
      · show eqNat 7 0 k len = false
        unfold eqNat
        exact hb
      · show eqNat 7 0 k len = false
        unfold eqNat
        exact hb
      all_goals exact absurd h1 (by decide)
    rw [hfalse, hb]

end Hashset
